import Mathlib

/-!
# PiGFX core (`src/pigfx.c`): serial ring buffer, drain loop, keyboard bridge, heartbeat

A shallow embedding of the interrupt-driven UART ingestion path
(`uart_fill_queue`), the foreground loop that drains it (`term_main_loop`),
the USB keyboard callback (`_keypress_handler`) and the heartbeat timer
callback (`_heartbeat_timer_handler`).

Modelling conventions.

* Pointers into the receive buffer (`uart_buffer_start`, `uart_buffer_end`,
  `uart_buffer_limit`) are byte offsets from `uart_buffer`; the pointer
  comparisons of the source become comparisons of offsets.
* The buffer memory is a function from offsets to byte values.
* The UART receive FIFO is the list `rx` of values that successive reads of
  the data register return; the flag register reports "empty" exactly when
  that list is empty.
* Calls into collaborators that are not part of this file (`gfx_term_putstring`,
  `uart_write`, `timer_poll`, register stores) are recorded, in order, in `trace`.
* Build-time switches of `pigfx_config.h` are the fields of `Config`.
-/

namespace PiGFX

/-! ## Constants of the source -/

def GPFSEL1 : Nat := 0x20200004
def GPSET0 : Nat := 0x2020001C
def GPCLR0 : Nat := 0x20200028

/-- Size of the receive buffer in bytes (16k). -/
def UART_BUFFER_SIZE : Nat := 16384

/-- The build-time switches read through `ENABLED(...)`, and `HEARTBEAT_FREQUENCY`,
all defined in `pigfx_config.h`. -/
structure Config where
  SEND_CR_LF : Bool
  SEND_CR_ONLY : Bool
  SWAP_DEL_WITH_BACKSPACE : Bool
  BACKSPACE_ECHO : Bool
  SKIP_BACKSPACE_ECHO : Bool
  HEARTBEAT_FREQUENCY : Nat
deriving DecidableEq, Repr

/-- Callbacks that the program registers with the timer scheduler. -/
inductive Handler where
  /-- The function `_heartbeat_timer_handler` of `pigfx.c`. -/
  | heartbeat
deriving DecidableEq, Repr

/-- Observable actions on collaborators, in program order. -/
inductive Event where
  /-- A 32-bit store to a memory-mapped register (`W32(addr, val)` or a store
  through one of the `UART0_*` register pointers). -/
  | W32 (addr val : Nat)
  /-- A call of `gfx_term_putstring`; `str` is the NUL-terminated string the callee sees. -/
  | gfx_term_putstring (str : List Nat)
  /-- A call `uart_write(p, n)`; `bytes` are the `n` bytes at `p`. -/
  | uart_write (bytes : List Nat)
  | timer_poll
  | attach_timer_handler (delay : Nat) (handler : Handler)
  | irq_enable_irqs_2
  | enable_irq
  | irq_attach_handler (line : Nat)
deriving DecidableEq, Repr

/-- The global variables of `pigfx.c` together with the hardware state they talk to. -/
structure State where
  /-- Contents of `uart_buffer[0 ..]`, by offset. -/
  mem : Nat → Nat
  uart_buffer_start : Nat
  uart_buffer_end : Nat
  uart_buffer_limit : Nat
  UART0_DR : Nat
  UART0_ITCR : Nat
  UART0_IMSC : Nat
  UART0_FR : Nat
  led_status : Nat
  backspace_n_skip : Nat
  last_backspace_t : Nat
  /-- The UART receive FIFO: the values the next reads of `*UART0_DR` return. -/
  rx : List Nat
  /-- The timer scheduler's registry of pending one-shot callbacks. -/
  timers : List (Nat × Handler)
  trace : List Event

/-- Append one event to the trace. -/
def emit (e : Event) (s : State) : State :=
  { s with trace := s.trace ++ [e] }

/-- The string a callee sees at a `char*`: the bytes before the first NUL. -/
def cstr (bytes : List Nat) : List Nat :=
  bytes.takeWhile (fun b => b != 0)

/-- Unsigned 32-bit subtraction `a - b`. -/
def sub32 (a b : Nat) : Nat :=
  (a % 2 ^ 32 + 2 ^ 32 - b % 2 ^ 32) % 2 ^ 32

/-! ## `uart_fill_queue` -/

/-- One pass through the body of the `while` loop of `uart_fill_queue`, `dr` being
the value read from `*UART0_DR`. -/
def uart_fill_queue_body (dr : Nat) (s : State) : State :=
  -- *uart_buffer_end++ = (char)( *UART0_DR & 0xFF );
  let mem1 := Function.update s.mem s.uart_buffer_end (dr &&& 0xFF)
  let end1 := s.uart_buffer_end + 1
  -- if( uart_buffer_end >= uart_buffer_limit ) uart_buffer_end = uart_buffer;
  let end2 := if end1 ≥ s.uart_buffer_limit then 0 else end1
  -- if( uart_buffer_end == uart_buffer_start ) { uart_buffer_start++; ... }
  let start2 :=
    if end2 = s.uart_buffer_start then
      let start1 := s.uart_buffer_start + 1
      if start1 ≥ s.uart_buffer_limit then 0 else start1
    else s.uart_buffer_start
  { s with mem := mem1, uart_buffer_end := end2, uart_buffer_start := start2 }

/-- The `while( !( *UART0_FR & 0x10 ) )` loop: runs the body once for every value
waiting in the receive FIFO, popping it. -/
def uart_fill_queue_loop : List Nat → State → State
  | [], s => { s with rx := [] }
  | dr :: rest, s => uart_fill_queue_loop rest (uart_fill_queue_body dr { s with rx := rest })

/-- The interrupt handler `uart_fill_queue`: the loop, then `*UART0_ITCR = 0xFFFFFFFF`. -/
def uart_fill_queue (s : State) : State :=
  let s1 := uart_fill_queue_loop s.rx s
  emit (Event.W32 s1.UART0_ITCR 0xFFFFFFFF) s1

/-- The function `initialize_uart_irq`. -/
def initialize_uart_irq (s : State) : State :=
  let s1 := { s with uart_buffer_start := 0, uart_buffer_end := 0,
                     uart_buffer_limit := UART_BUFFER_SIZE,
                     UART0_DR := 0x20201000, UART0_IMSC := 0x20201038,
                     UART0_ITCR := 0x20201044, UART0_FR := 0x20201018 }
  let s2 := emit (Event.W32 s1.UART0_IMSC ((1 <<< 4) ||| (1 <<< 7) ||| (1 <<< 9))) s1
  let s3 := emit (Event.W32 s2.UART0_ITCR 0xFFFFFFFF) s2
  let s4 := emit Event.irq_enable_irqs_2 s3
  let s5 := emit Event.enable_irq s4
  emit (Event.irq_attach_handler 57) s5

/-! ## Timer scheduler and heartbeat -/

/-- Modelled from the spec: `attach_timer_handler` of `timer.c` is not among the
sources. The spec's Timer Scheduler "maintains a list of one-shot, re-armable
callbacks keyed by a delay"; registering adds one entry to that list. -/
def attach_timer_handler (delay : Nat) (h : Handler) (s : State) : State :=
  emit (Event.attach_timer_handler delay h) { s with timers := s.timers ++ [(delay, h)] }

/-- Modelled from the spec: `timers_init` of `timer.c` is not among the sources;
it leaves the registry without entries. -/
def timers_init (s : State) : State :=
  { s with timers := [] }

/-- The callback `_heartbeat_timer_handler`. -/
def _heartbeat_timer_handler (cfg : Config) (s : State) : State :=
  let s1 :=
    if s.led_status ≠ 0 then
      { emit (Event.W32 GPCLR0 (1 <<< 16)) s with led_status := 0 }
    else
      { emit (Event.W32 GPSET0 (1 <<< 16)) s with led_status := 1 }
  attach_timer_handler cfg.HEARTBEAT_FREQUENCY Handler.heartbeat s1

/-- Run a registered callback. -/
def Handler.run (cfg : Config) : Handler → State → State
  | Handler.heartbeat => _heartbeat_timer_handler cfg

/-- Modelled from the spec: the firing of a timer is done by `timer.c`, which is not
among the sources. Entries are one-shot: the oldest pending entry leaves the
registry and its callback runs; with no entry pending nothing happens. -/
def timer_fire (cfg : Config) (s : State) : State :=
  match s.timers with
  | [] => s
  | (_, h) :: rest => h.run cfg { s with timers := rest }

/-- The function `heartbeat_init`; `gpfsel1` is the value `R32(GPFSEL1)` returns. -/
def heartbeat_init (gpfsel1 : Nat) (s : State) : State :=
  let ra := gpfsel1 % 2 ^ 32
  -- ra &= ~(7<<18); ra |= 1<<18;
  let ra := ra &&& (0xFFFFFFFF - (7 <<< 18))
  let ra := ra ||| (1 <<< 18)
  let s1 := emit (Event.W32 GPFSEL1 ra) s
  let s2 := emit (Event.W32 0x20200000 0x04a020) s1
  let s3 := emit (Event.W32 0x20200008 0x65b6c0) s2
  { s3 with led_status := 0 }

/-- The part of `entry_point` that sets up the state modelled here, in its order:
`heartbeat_init()`, `timers_init()`, the first registration of the heartbeat
callback and `initialize_uart_irq()`. The video set-up, the banner (which goes
through `gfx_term_putstring` and `ee_printf`) and the USB start-up lie between and
after these calls; they touch none of the modelled variables and are not recorded. -/
def entry_point (cfg : Config) (gpfsel1 : Nat) (s : State) : State :=
  let s1 := heartbeat_init gpfsel1 s
  let s2 := timers_init s1
  let s3 := attach_timer_handler cfg.HEARTBEAT_FREQUENCY Handler.heartbeat s2
  initialize_uart_irq s3

/-! ## `_keypress_handler` -/

/-- The body of the `while( *c )` loop of `_keypress_handler` for the character `ch`;
`now` is what `time_microsec()` returns if it is called. -/
def _keypress_char (cfg : Config) (now : Nat) (ch : Nat) (s : State) : State :=
  -- SEND_CR_LF: if( ch == 10 ) uart_write( &CR, 1 );
  let s1 := if cfg.SEND_CR_LF && ch == 10 then emit (Event.uart_write [13]) s else s
  -- SEND_CR_ONLY: if( ch == 10 ) ch = 13;
  let ch1 := if cfg.SEND_CR_ONLY && ch == 10 then 13 else ch
  -- SWAP_DEL_WITH_BACKSPACE: if( ch == 0x7F ) ch = 0x8;
  let ch2 := if cfg.SWAP_DEL_WITH_BACKSPACE && ch1 == 0x7F then 0x8 else ch1
  -- BACKSPACE_ECHO: if( ch == 0x8 ) gfx_term_putstring( "\x7F" );
  let s2 := if cfg.BACKSPACE_ECHO && ch2 == 0x8 then emit (Event.gfx_term_putstring [0x7F]) s1 else s1
  -- SKIP_BACKSPACE_ECHO: if( ch == 0x7F ) { backspace_n_skip = 2; last_backspace_t = time_microsec(); }
  let s3 :=
    if cfg.SKIP_BACKSPACE_ECHO && ch2 == 0x7F then
      { s2 with backspace_n_skip := 2, last_backspace_t := now % 2 ^ 32 }
    else s2
  -- uart_write( &ch, 1 );
  emit (Event.uart_write [ch2]) s3

/-- The `while( *c )` loop from the character at index `i` on: `str` holds the bytes
at `c`, the loop ends at the first NUL (or where the bytes end), and
`time_microsec i` is the clock reading available while character `i` is handled. -/
def _keypress_loop (cfg : Config) (time_microsec : Nat → Nat) : Nat → List Nat → State → State
  | _, [], s => s
  | i, ch :: rest, s =>
    if ch = 0 then s
    else _keypress_loop cfg time_microsec (i + 1) rest (_keypress_char cfg (time_microsec i) ch s)

/-- The callback `_keypress_handler( str )`. -/
def _keypress_handler (cfg : Config) (time_microsec : Nat → Nat) (str : List Nat) (s : State) : State :=
  _keypress_loop cfg time_microsec 0 str s

/-! ## `term_main_loop` -/

/-- The `if( !DMA_CHAN0_BUSY && uart_buffer_start != uart_buffer_end ) { ... }` block of
one iteration of `term_main_loop`: the consume step. `now` is what `time_microsec()`
returns if it is called. -/
def term_main_loop_consume (cfg : Config) (DMA_CHAN0_BUSY : Bool) (now : Nat) (s : State) : State :=
  if !DMA_CHAN0_BUSY && s.uart_buffer_start != s.uart_buffer_end then
    -- strb[0] = *uart_buffer_start++;
    let strb0 := s.mem s.uart_buffer_start
    let start1 := s.uart_buffer_start + 1
    -- if( uart_buffer_start >= uart_buffer_limit ) uart_buffer_start = uart_buffer;
    let start2 := if start1 ≥ s.uart_buffer_limit then 0 else start1
    let s1 := { s with uart_buffer_start := start2 }
    if cfg.SKIP_BACKSPACE_ECHO then
      -- if( time_microsec()-last_backspace_t > 50000 ) backspace_n_skip=0;
      let n1 := if sub32 now s1.last_backspace_t > 50000 then 0 else s1.backspace_n_skip
      if n1 > 0 then
        -- strb[0]=0; backspace_n_skip--; if( backspace_n_skip == 0) strb[0]=0x7F;
        let n2 := n1 - 1
        let strb0 := if n2 = 0 then 0x7F else 0
        emit (Event.gfx_term_putstring (cstr [strb0, 0])) { s1 with backspace_n_skip := n2 }
      else
        emit (Event.gfx_term_putstring (cstr [strb0, 0])) { s1 with backspace_n_skip := n1 }
    else
      emit (Event.gfx_term_putstring (cstr [strb0, 0])) s1
  else s

/-- The UART hardware receives `arrivals`: they queue up behind what is already in
the receive FIFO. -/
def uart_receive (arrivals : List Nat) (s : State) : State :=
  { s with rx := s.rx ++ arrivals }

/-- The call `timer_poll()` (of `timer.c`, not among the sources): recorded only. -/
def timer_poll (s : State) : State :=
  emit Event.timer_poll s

/-- One iteration of the `while(1)` loop of `term_main_loop`: the consume step,
`uart_fill_queue(0)` and `timer_poll()`. `arrivals` are the bytes the UART has
received by the time `uart_fill_queue` polls it. -/
def term_main_loop_iter (cfg : Config) (DMA_CHAN0_BUSY : Bool) (now : Nat) (arrivals : List Nat)
    (s : State) : State :=
  timer_poll (uart_fill_queue (uart_receive arrivals (term_main_loop_consume cfg DMA_CHAN0_BUSY now s)))

/-! ## Observations on a state -/

/-- Number of unread bytes: the distance from the read cursor up to the write
cursor, wrapping at the limit. -/
def unread_count (s : State) : Nat :=
  if s.uart_buffer_start ≤ s.uart_buffer_end then s.uart_buffer_end - s.uart_buffer_start
  else s.uart_buffer_end + s.uart_buffer_limit - s.uart_buffer_start

/-- Offset of the `i`-th byte after offset `start`, wrapping at `limit`. -/
def wrap_index (limit start i : Nat) : Nat :=
  if start + i < limit then start + i else start + i - limit

/-- The `n` bytes stored from offset `start` on, wrapping at `limit`. -/
def read_wrapping (mem : Nat → Nat) (limit start n : Nat) : List Nat :=
  (List.range n).map (fun i => mem (wrap_index limit start i))

/-- The unread contents: the bytes from the read cursor up to the write cursor,
wrapping at the limit, oldest first. -/
def unread (s : State) : List Nat :=
  read_wrapping s.mem s.uart_buffer_limit s.uart_buffer_start (unread_count s)

/-- The capacity invariant: both cursors are offsets inside the buffer. -/
def inv (s : State) : Prop :=
  s.uart_buffer_start < s.uart_buffer_limit ∧ s.uart_buffer_end < s.uart_buffer_limit

instance (s : State) : Decidable (inv s) := by
  unfold inv; infer_instance

/-- The last `k` elements of a list (all of it when it is shorter). -/
def lastN (k : Nat) (l : List Nat) : List Nat :=
  l.drop (l.length - k)

/-- The bytes `uart_fill_queue` stores for the FIFO values `rx`. -/
def bytes_of (rx : List Nat) : List Nat :=
  rx.map (fun dr => dr &&& 0xFF)

/-- The bytes handed to `gfx_term_putstring`, call after call. -/
def rendered : List Event → List Nat
  | [] => []
  | Event.gfx_term_putstring str :: es => str ++ rendered es
  | _ :: es => rendered es

/-- The strings handed to `gfx_term_putstring`, one per call. -/
def putstrings : List Event → List (List Nat)
  | [] => []
  | Event.gfx_term_putstring str :: es => str :: putstrings es
  | _ :: es => putstrings es

/-- The bytes handed to `uart_write`, call after call. -/
def transmitted : List Event → List Nat
  | [] => []
  | Event.uart_write bytes :: es => bytes ++ transmitted es
  | _ :: es => transmitted es

/-- The number of pending registrations of the heartbeat callback. -/
def heartbeat_pending (s : State) : Nat :=
  (s.timers.filter (fun e => e.2 = Handler.heartbeat)).length

/-- What the loop leaves alone. -/
def same_frame (s t : State) : Prop :=
  t.uart_buffer_limit = s.uart_buffer_limit ∧ t.UART0_ITCR = s.UART0_ITCR ∧
  t.led_status = s.led_status ∧ t.backspace_n_skip = s.backspace_n_skip ∧
  t.last_backspace_t = s.last_backspace_t ∧ t.timers = s.timers ∧ t.trace = s.trace

/-! ## Runs -/

/-- What can happen to the machine, one atomic step each. -/
inductive Op where
  /-- The UART interrupt: `arrivals` have been received and `uart_fill_queue` runs. -/
  | ingest (arrivals : List Nat)
  /-- One iteration of `term_main_loop`. -/
  | drain (DMA_CHAN0_BUSY : Bool) (now : Nat) (arrivals : List Nat)
  /-- The USB keyboard driver calls `_keypress_handler( str )`. -/
  | key (time_microsec : Nat → Nat) (str : List Nat)
  /-- A timer fires. -/
  | timer

/-- Execute one step. -/
def step (cfg : Config) : Op → State → State
  | Op.ingest arrivals, s => uart_fill_queue (uart_receive arrivals s)
  | Op.drain busy now arrivals, s => term_main_loop_iter cfg busy now arrivals s
  | Op.key clk str, s => _keypress_handler cfg clk str s
  | Op.timer, s => timer_fire cfg s

/-- Execute a sequence of steps, first to last. -/
def run (cfg : Config) : List Op → State → State
  | [], s => s
  | op :: ops, s => run cfg ops (step cfg op s)

/-- The bytes a step feeds to `uart_fill_queue`. -/
def arrivals_of : Op → List Nat
  | Op.ingest arrivals => arrivals
  | Op.drain _ _ arrivals => arrivals
  | _ => []

/-- The byte a step takes out of the ring buffer (`strb[0] = *uart_buffer_start++`), if any. -/
def consumed_by : Op → State → List Nat
  | Op.drain busy _ _, s =>
    if !busy && s.uart_buffer_start != s.uart_buffer_end then [s.mem s.uart_buffer_start] else []
  | _, _ => []

/-- The consume steps of a run, in order: for each one the byte taken out of the ring
buffer and the clock reading of that iteration. -/
def consumptions (cfg : Config) : List Op → State → List (Nat × Nat)
  | [], _ => []
  | Op.drain busy now a :: ops, s =>
    (if !busy && s.uart_buffer_start != s.uart_buffer_end then [(s.mem s.uart_buffer_start, now)]
      else [])
    ++ consumptions cfg ops (step cfg (Op.drain busy now a) s)
  | op :: ops, s => consumptions cfg ops (step cfg op s)

/-- The strings handed to `gfx_term_putstring` by the iterations of `term_main_loop`
during a run, one per call, in order: for each iteration what its step adds to the
strings recorded in the trace (calls made by key presses are left out). -/
def inbound_putstrings (cfg : Config) : List Op → State → List (List Nat)
  | [], _ => []
  | Op.drain busy now a :: ops, s =>
    (putstrings (step cfg (Op.drain busy now a) s).trace).drop (putstrings s.trace).length
    ++ inbound_putstrings cfg ops (step cfg (Op.drain busy now a) s)
  | op :: ops, s => inbound_putstrings cfg ops (step cfg op s)

/-- Whether a step gives no byte `0x7F` to the keyboard bridge: it is not a key press,
or the text of the key press (the bytes before the first NUL) has no `0x7F`. -/
def no_del : Op → Bool
  | Op.key _ str => decide (0x7F ∉ cstr str)
  | _ => true

/-- Whether a step is a key press. -/
def is_key : Op → Bool
  | Op.key _ _ => true
  | _ => false

/-- The bytes taken out of the ring buffer by the drain loop during a run, in order. -/
def drained (cfg : Config) : List Op → State → List Nat
  | [], _ => []
  | op :: ops, s => consumed_by op s ++ drained cfg ops (step cfg op s)

/-- The bytes put into the ring buffer during a run started with FIFO contents `s.rx`, in order. -/
def ingested (ops : List Op) (s : State) : List Nat :=
  bytes_of (s.rx ++ (ops.map arrivals_of).flatten)

/-- Whether every ingestion of a run fits: at each call of `uart_fill_queue` the bytes
still unread plus the values about to be stored number at most `limit - 1`, so that
the overwrite-on-full branch is never taken. -/
def fits (cfg : Config) : List Op → State → Prop
  | [], _ => True
  | op :: ops, s =>
    (match op with
      | Op.ingest a => unread_count s + (s.rx ++ a).length ≤ s.uart_buffer_limit - 1
      | Op.drain busy now a =>
        unread_count (term_main_loop_consume cfg busy now s) + (s.rx ++ a).length
          ≤ s.uart_buffer_limit - 1
      | _ => True)
    ∧ fits cfg ops (step cfg op s)

/-- The numbers of bytes ingested between two consecutive drain observations of a run:
`cur` bytes have been ingested since the last consume step; the values that the
`uart_fill_queue` call of a `term_main_loop` iteration stores count for the stretch
after that iteration's consume step. -/
def ingested_between (cur : Nat) : List Op → List Nat
  | [] => [cur]
  | Op.ingest a :: ops => ingested_between (cur + a.length) ops
  | Op.drain _ _ a :: ops => cur :: ingested_between a.length ops
  | _ :: ops => ingested_between cur ops

/-- The drain loop run to completion: iterations of `term_main_loop` with the DMA engine
never busy and nothing arriving, until the two cursors are equal, at most `fuel` of
them; `now n` is the clock reading in the iteration entered with `n + 1` fuel left. -/
def drain_to_completion (cfg : Config) (now : Nat → Nat) : Nat → State → State
  | 0, s => s
  | n + 1, s =>
    if s.uart_buffer_start = s.uart_buffer_end then s
    else drain_to_completion cfg now n (term_main_loop_iter cfg false (now n) [] s)

/-- A sequence of UART interrupts, one per batch of received values, with the drain
loop run to completion after each (the fuel given is the buffer size, more than the
buffer can hold unread). -/
def ingest_and_drain (cfg : Config) (now : Nat → Nat) : List (List Nat) → State → State
  | [], s => s
  | batch :: more, s =>
    ingest_and_drain cfg now more
      (drain_to_completion cfg now s.uart_buffer_limit (uart_fill_queue (uart_receive batch s)))

/-- The machine after `k` timer firings. -/
def fire (cfg : Config) : Nat → State → State
  | 0, s => s
  | k + 1, s => timer_fire cfg (fire cfg k s)

/-! ## The transforms in the spec's words, and sample inputs -/

/-- Backspace-echo suppression as the spec words it, for a key press "DEL" at time `t0`:
`n` renderings are still to be swallowed; a byte consumed more than 50000 microseconds
after `t0` (unsigned 32-bit difference) ends the suppression and is rendered
unchanged; within the window the last swallowed byte is replaced by a rendering of
`0x7F` and the ones before it by nothing; with nothing left to swallow every byte is
rendered unchanged. Each entry is a consumed byte with the time of its consumption;
the result lists the strings rendered, one per consumed byte. -/
def suppression : Nat → Nat → List (Nat × Nat) → List (List Nat)
  | _, _, [] => []
  | t0, n, (b, t) :: more =>
    if n = 0 ∨ sub32 t t0 > 50000 then cstr [b, 0] :: suppression t0 0 more
    else if n = 1 then [0x7F] :: suppression t0 0 more
    else [] :: suppression t0 (n - 1) more

/-- The text with one byte `0x0D` inserted immediately before every byte `0x0A`, as the
spec words the newline-to-CR-LF expansion. -/
def crlf_expand : List Nat → List Nat
  | [] => []
  | c :: cs => if c = 10 then 13 :: 10 :: crlf_expand cs else c :: crlf_expand cs

/-- A machine state before `entry_point` runs: buffer memory all zero, nothing
pending, nothing recorded. -/
def boot : State :=
  { mem := fun _ => 0, uart_buffer_start := 0, uart_buffer_end := 0, uart_buffer_limit := 0,
    UART0_DR := 0, UART0_ITCR := 0, UART0_IMSC := 0, UART0_FR := 0,
    led_status := 0, backspace_n_skip := 0, last_backspace_t := 0,
    rx := [], timers := [], trace := [] }

/-- A configuration with every switch off. -/
def cfg_off : Config :=
  { SEND_CR_LF := false, SEND_CR_ONLY := false, SWAP_DEL_WITH_BACKSPACE := false,
    BACKSPACE_ECHO := false, SKIP_BACKSPACE_ECHO := false, HEARTBEAT_FREQUENCY := 250000 }

/-- The configuration with newline-to-CR-LF expansion as the only switch that is on. -/
def cfg_crlf : Config :=
  { SEND_CR_LF := true, SEND_CR_ONLY := false, SWAP_DEL_WITH_BACKSPACE := false,
    BACKSPACE_ECHO := false, SKIP_BACKSPACE_ECHO := false, HEARTBEAT_FREQUENCY := 250000 }

/-- The configuration with backspace-echo suppression as the only switch that is on. -/
def cfg_skip : Config :=
  { SEND_CR_LF := false, SEND_CR_ONLY := false, SWAP_DEL_WITH_BACKSPACE := false,
    BACKSPACE_ECHO := false, SKIP_BACKSPACE_ECHO := true, HEARTBEAT_FREQUENCY := 250000 }

/-- The configuration with backspace-echo suppression and delete-to-backspace
substitution on. -/
def cfg_swap_skip : Config :=
  { SEND_CR_LF := false, SEND_CR_ONLY := false, SWAP_DEL_WITH_BACKSPACE := true,
    BACKSPACE_ECHO := false, SKIP_BACKSPACE_ECHO := true, HEARTBEAT_FREQUENCY := 250000 }

/-- The freshly initialised machine with two values waiting in the UART receive FIFO
(the first with bits above the low eight set). -/
def sample_state : State :=
  uart_receive [0x141, 0x42] (initialize_uart_irq boot)

/-- A run after a key press: one iteration of `term_main_loop` with nothing to consume,
the key press "a", then the remote echo `0x08, 0x20, 0x08` arrives and is consumed by
three iterations at clock readings 5, 20 and 30 (DMA engine idle throughout). -/
def echo_run : List Op :=
  [Op.drain false 2 [], Op.key (fun _ => 3) [0x61, 0], Op.ingest [0x08, 0x20, 0x08],
   Op.drain false 5 [], Op.drain false 20 [], Op.drain false 30 []]

/-- A run after a key press "DEL" at clock reading 1000: "ABC" arrives, "A" is consumed
at 1003, "DEL" is pressed again at 1006, and "B", "C" are consumed at 1010 and 1020. -/
def del_again_run : List Op :=
  [Op.ingest [0x41, 0x42, 0x43], Op.drain false 1003 [], Op.key (fun _ => 1006) [0x7F, 0],
   Op.drain false 1010 [], Op.drain false 1020 []]

/-- A run in which every stretch between two drain observations ingests `capacity - 1`
bytes: 16383 bytes "A", one iteration of `term_main_loop`, 16383 bytes "B", one more
iteration (DMA engine idle, nothing arriving during the iterations). -/
def overflow_run : List Op :=
  [Op.ingest (List.replicate 16383 0x41), Op.drain false 0 [],
   Op.ingest (List.replicate 16383 0x42), Op.drain false 0 []]

/-! ## Reading the ring buffer -/

theorem land_ff (x : Nat) : x &&& 0xFF = x % 256 :=
  Nat.and_pow_two_sub_one_eq_mod x 8

theorem read_wrapping_length (mem : Nat → Nat) (limit start n : Nat) :
    (read_wrapping mem limit start n).length = n := by
  simp [read_wrapping]

theorem read_wrapping_snoc (mem : Nat → Nat) (limit start n : Nat) :
    read_wrapping mem limit start (n + 1)
      = read_wrapping mem limit start n ++ [mem (wrap_index limit start n)] := by
  simp [read_wrapping, List.range_succ]

theorem read_wrapping_cons (mem : Nat → Nat) (limit start n : Nat)
    (hs : start < limit) (hn : n ≤ limit) :
    read_wrapping mem limit start (n + 1)
      = mem start :: read_wrapping mem limit (if start + 1 ≥ limit then 0 else start + 1) n := by
  simp only [read_wrapping, List.range_succ_eq_map, List.map_cons, List.map_map]
  congr 1
  · simp [wrap_index, hs]
  · apply List.map_congr_left
    intro i hi
    have hi' : i < n := List.mem_range.mp hi
    simp only [Function.comp, wrap_index, Nat.succ_eq_add_one]
    congr 1
    split_ifs <;> omega

theorem read_wrapping_update (mem : Nat → Nat) (limit start n p v : Nat)
    (h : ∀ i, i < n → wrap_index limit start i ≠ p) :
    read_wrapping (Function.update mem p v) limit start n = read_wrapping mem limit start n := by
  simp only [read_wrapping]
  apply List.map_congr_left
  intro i hi
  exact Function.update_noteq (h i (List.mem_range.mp hi)) v mem

theorem unread_length (s : State) : (unread s).length = unread_count s := by
  simp [unread, read_wrapping_length]

theorem unread_count_lt (s : State) (h : inv s) : unread_count s < s.uart_buffer_limit := by
  obtain ⟨h1, h2⟩ := h
  simp only [unread_count]
  split_ifs <;> omega

/-! ## The ingestion step on the unread contents -/

theorem body_limit (dr : Nat) (s : State) :
    (uart_fill_queue_body dr s).uart_buffer_limit = s.uart_buffer_limit := rfl

theorem body_inv (dr : Nat) (s : State) (h : inv s) : inv (uart_fill_queue_body dr s) := by
  obtain ⟨h1, h2⟩ := h
  simp only [inv, uart_fill_queue_body]
  constructor <;> split_ifs <;> omega

/-- Reading one byte more than the unread count, after the store at the write cursor,
gives the old unread contents followed by the stored byte. -/
theorem read_after_store (v : Nat) (s : State) (h : inv s) :
    read_wrapping (Function.update s.mem s.uart_buffer_end v) s.uart_buffer_limit
        s.uart_buffer_start (unread_count s + 1)
      = unread s ++ [v] := by
  obtain ⟨h1, h2⟩ := h
  rw [read_wrapping_snoc, read_wrapping_update]
  · have : wrap_index s.uart_buffer_limit s.uart_buffer_start (unread_count s)
        = s.uart_buffer_end := by
      simp only [wrap_index, unread_count]
      split_ifs <;> omega
    rw [this, Function.update_same]
    rfl
  · intro i hi
    simp only [unread_count] at hi
    simp only [wrap_index]
    split_ifs at hi ⊢ <;> omega

theorem unread_body (dr : Nat) (s : State) (h : inv s) :
    unread (uart_fill_queue_body dr s)
      = lastN (s.uart_buffer_limit - 1) (unread s ++ [dr &&& 0xFF]) := by
  have key := read_after_store (dr &&& 0xFF) s h
  obtain ⟨h1, h2⟩ := h
  by_cases hov : (if s.uart_buffer_end + 1 ≥ s.uart_buffer_limit then 0
      else s.uart_buffer_end + 1) = s.uart_buffer_start
  · -- the write cursor has caught up with the read cursor: the oldest byte goes
    have hc : unread_count s = s.uart_buffer_limit - 1 := by
      simp only [unread_count]
      split_ifs at hov ⊢ <;> omega
    have hc2 : unread_count (uart_fill_queue_body dr s) = unread_count s := by
      simp only [unread_count, uart_fill_queue_body]
      simp only [unread_count] at hc
      split_ifs at hov hc ⊢ <;> omega
    have hd : (unread s ++ [dr &&& 0xFF]).length - (s.uart_buffer_limit - 1) = 1 := by
      simp only [List.length_append, unread_length, List.length_singleton]
      omega
    rw [lastN, hd, ← key, read_wrapping_cons _ _ _ _ h1 (by omega), List.drop_one, List.tail_cons]
    simp only [unread, hc2]
    simp only [uart_fill_queue_body, if_pos hov]
  · have hc : unread_count s + 1 ≤ s.uart_buffer_limit - 1 := by
      simp only [unread_count]
      split_ifs at hov ⊢ <;> omega
    have hc2 : unread_count (uart_fill_queue_body dr s) = unread_count s + 1 := by
      simp only [unread_count, uart_fill_queue_body]
      split_ifs at hov ⊢ <;> omega
    have hd : (unread s ++ [dr &&& 0xFF]).length - (s.uart_buffer_limit - 1) = 0 := by
      simp only [List.length_append, unread_length, List.length_singleton]
      omega
    rw [lastN, hd, List.drop_zero, ← key]
    simp only [unread, hc2]
    simp only [uart_fill_queue_body, if_neg hov]

/-! ## Keeping the last elements of a list -/

theorem lastN_length (k : Nat) (l : List Nat) : (lastN k l).length = min l.length k := by
  simp only [lastN, List.length_drop]
  omega

theorem lastN_of_length_le (k : Nat) (l : List Nat) (h : l.length ≤ k) : lastN k l = l := by
  simp [lastN, Nat.sub_eq_zero_of_le h]

theorem lastN_lastN_append (k : Nat) (l m : List Nat) :
    lastN k (lastN k l ++ m) = lastN k (l ++ m) := by
  by_cases h : l.length ≤ k
  · rw [lastN_of_length_le k l h]
  · have h1 : (lastN k l ++ m).length - k = m.length := by
      simp only [List.length_append, lastN_length]
      omega
    have h2 : (l ++ m).length - k = (l.length - k) + m.length := by
      simp only [List.length_append]
      omega
    have h3 : l.length - k ≤ l.length := by omega
    unfold lastN at h1 ⊢
    rw [h1, h2, ← List.drop_drop, List.drop_append_of_le_length h3]

/-! ## The ingestion loop -/

theorem loop_frame (rx : List Nat) (s : State) : same_frame s (uart_fill_queue_loop rx s) := by
  induction rx generalizing s with
  | nil => simp [uart_fill_queue_loop, same_frame]
  | cons dr rest ih =>
    have := ih (uart_fill_queue_body dr { s with rx := rest })
    simpa [uart_fill_queue_loop, same_frame, uart_fill_queue_body] using this

theorem loop_rx (rx : List Nat) (s : State) : (uart_fill_queue_loop rx s).rx = [] := by
  induction rx generalizing s with
  | nil => rfl
  | cons dr rest ih => exact ih _

theorem loop_inv (rx : List Nat) (s : State) (h : inv s) : inv (uart_fill_queue_loop rx s) := by
  induction rx generalizing s with
  | nil => exact h
  | cons dr rest ih => exact ih _ (body_inv dr _ h)

theorem loop_unread (rx : List Nat) (s : State) (h : inv s) :
    unread (uart_fill_queue_loop rx s)
      = lastN (s.uart_buffer_limit - 1) (unread s ++ bytes_of rx) := by
  induction rx generalizing s with
  | nil =>
    have hl := unread_count_lt s h
    rw [bytes_of, List.map_nil, List.append_nil, lastN_of_length_le]
    · rfl
    · rw [unread_length]; omega
  | cons dr rest ih =>
    have hi : inv { s with rx := rest } := h
    rw [uart_fill_queue_loop, ih _ (body_inv dr _ hi), unread_body dr _ hi, body_limit]
    show lastN _ (lastN _ (unread s ++ [dr &&& 0xFF]) ++ bytes_of rest) = _
    rw [lastN_lastN_append, List.append_assoc]
    rfl

theorem fill_frame (s : State) :
    (uart_fill_queue s).uart_buffer_limit = s.uart_buffer_limit ∧
    (uart_fill_queue s).UART0_ITCR = s.UART0_ITCR ∧
    (uart_fill_queue s).led_status = s.led_status ∧
    (uart_fill_queue s).backspace_n_skip = s.backspace_n_skip ∧
    (uart_fill_queue s).last_backspace_t = s.last_backspace_t ∧
    (uart_fill_queue s).timers = s.timers ∧
    (uart_fill_queue s).trace = s.trace ++ [Event.W32 s.UART0_ITCR 0xFFFFFFFF] ∧
    (uart_fill_queue s).rx = [] := by
  obtain ⟨h1, h2, h3, h4, h5, h6, h7⟩ := loop_frame s.rx s
  simp only [uart_fill_queue, emit]
  exact ⟨h1, h2, h3, h4, h5, h6, by rw [h7, h2], loop_rx _ _⟩

theorem fill_inv (s : State) (h : inv s) : inv (uart_fill_queue s) :=
  loop_inv s.rx s h

theorem fill_unread (s : State) (h : inv s) :
    unread (uart_fill_queue s)
      = lastN (s.uart_buffer_limit - 1) (unread s ++ bytes_of s.rx) :=
  loop_unread s.rx s h

/-! ## The consume step -/

theorem consume_idle (cfg : Config) (busy : Bool) (now : Nat) (s : State)
    (h : busy = true ∨ s.uart_buffer_start = s.uart_buffer_end) :
    term_main_loop_consume cfg busy now s = s := by
  rcases h with h | h <;> simp [term_main_loop_consume, h]

theorem consume_frame (cfg : Config) (busy : Bool) (now : Nat) (s : State) :
    (term_main_loop_consume cfg busy now s).mem = s.mem ∧
    (term_main_loop_consume cfg busy now s).uart_buffer_end = s.uart_buffer_end ∧
    (term_main_loop_consume cfg busy now s).uart_buffer_limit = s.uart_buffer_limit ∧
    (term_main_loop_consume cfg busy now s).rx = s.rx ∧
    (term_main_loop_consume cfg busy now s).timers = s.timers ∧
    (term_main_loop_consume cfg busy now s).led_status = s.led_status ∧
    (term_main_loop_consume cfg busy now s).UART0_ITCR = s.UART0_ITCR ∧
    (term_main_loop_consume cfg busy now s).last_backspace_t = s.last_backspace_t := by
  simp only [term_main_loop_consume]
  split_ifs <;> simp [emit]

theorem consume_start (cfg : Config) (now : Nat) (s : State)
    (hne : s.uart_buffer_start ≠ s.uart_buffer_end) :
    (term_main_loop_consume cfg false now s).uart_buffer_start
      = if s.uart_buffer_start + 1 ≥ s.uart_buffer_limit then 0 else s.uart_buffer_start + 1 := by
  simp only [term_main_loop_consume]
  split_ifs <;> simp_all [emit]

theorem consume_inv (cfg : Config) (busy : Bool) (now : Nat) (s : State) (h : inv s) :
    inv (term_main_loop_consume cfg busy now s) := by
  by_cases hb : busy = true ∨ s.uart_buffer_start = s.uart_buffer_end
  · rw [consume_idle cfg busy now s hb]; exact h
  · have hb1 : busy = false := by
      cases busy <;> simp_all
    have hne : s.uart_buffer_start ≠ s.uart_buffer_end := fun e => hb (Or.inr e)
    obtain ⟨h1, h2⟩ := h
    obtain ⟨-, he, hl, -⟩ := consume_frame cfg busy now s
    subst hb1
    have hs := consume_start cfg now s hne
    simp only [inv, he, hl, hs]
    constructor
    · split_ifs <;> omega
    · exact h2

theorem consume_unread (cfg : Config) (now : Nat) (s : State) (h : inv s)
    (hne : s.uart_buffer_start ≠ s.uart_buffer_end) :
    unread s = s.mem s.uart_buffer_start :: unread (term_main_loop_consume cfg false now s) := by
  obtain ⟨h1, h2⟩ := h
  obtain ⟨hm, he, hl, -⟩ := consume_frame cfg false now s
  have hs := consume_start cfg now s hne
  have hc : unread_count s = unread_count (term_main_loop_consume cfg false now s) + 1 := by
    simp only [unread_count, he, hl, hs]
    split_ifs <;> omega
  have hn : unread_count (term_main_loop_consume cfg false now s) ≤ s.uart_buffer_limit := by
    have := unread_count_lt s ⟨h1, h2⟩
    omega
  simp only [unread]
  rw [hc, read_wrapping_cons _ _ _ _ h1 hn, hm, hl, hs]

theorem unread_eq_nil_iff (s : State) (h : inv s) :
    unread s = [] ↔ s.uart_buffer_start = s.uart_buffer_end := by
  obtain ⟨h1, h2⟩ := h
  rw [← List.length_eq_zero, unread_length]
  simp only [unread_count]
  split_ifs <;> omega

/-! ## Steps that leave the ring buffer alone -/

theorem keypress_char_buffer (cfg : Config) (now ch : Nat) (s : State) :
    (_keypress_char cfg now ch s).mem = s.mem ∧
    (_keypress_char cfg now ch s).uart_buffer_start = s.uart_buffer_start ∧
    (_keypress_char cfg now ch s).uart_buffer_end = s.uart_buffer_end ∧
    (_keypress_char cfg now ch s).uart_buffer_limit = s.uart_buffer_limit ∧
    (_keypress_char cfg now ch s).rx = s.rx := by
  simp only [_keypress_char, emit]
  split_ifs <;> simp

theorem keypress_loop_buffer (cfg : Config) (clk : Nat → Nat) (i : Nat) (str : List Nat)
    (s : State) :
    (_keypress_loop cfg clk i str s).mem = s.mem ∧
    (_keypress_loop cfg clk i str s).uart_buffer_start = s.uart_buffer_start ∧
    (_keypress_loop cfg clk i str s).uart_buffer_end = s.uart_buffer_end ∧
    (_keypress_loop cfg clk i str s).uart_buffer_limit = s.uart_buffer_limit ∧
    (_keypress_loop cfg clk i str s).rx = s.rx := by
  induction str generalizing i s with
  | nil => simp [_keypress_loop]
  | cons ch rest ih =>
    simp only [_keypress_loop]
    split_ifs
    · simp
    · obtain ⟨h1, h2, h3, h4, h5⟩ := ih (i + 1) (_keypress_char cfg (clk i) ch s)
      obtain ⟨g1, g2, g3, g4, g5⟩ := keypress_char_buffer cfg (clk i) ch s
      exact ⟨h1.trans g1, h2.trans g2, h3.trans g3, h4.trans g4, h5.trans g5⟩

theorem timer_fire_buffer (cfg : Config) (s : State) :
    (timer_fire cfg s).mem = s.mem ∧
    (timer_fire cfg s).uart_buffer_start = s.uart_buffer_start ∧
    (timer_fire cfg s).uart_buffer_end = s.uart_buffer_end ∧
    (timer_fire cfg s).uart_buffer_limit = s.uart_buffer_limit ∧
    (timer_fire cfg s).rx = s.rx := by
  simp only [timer_fire]
  split
  · simp
  · rename_i d h rest _
    cases h
    simp only [Handler.run, _heartbeat_timer_handler, attach_timer_handler, emit]
    split_ifs <;> simp

/-! ## The invariant along a run -/

theorem step_limit (cfg : Config) (op : Op) (s : State) :
    (step cfg op s).uart_buffer_limit = s.uart_buffer_limit := by
  cases op with
  | ingest a => exact (fill_frame _).1
  | drain busy now a =>
    show (uart_fill_queue _).uart_buffer_limit = _
    rw [(fill_frame _).1]
    exact (consume_frame cfg busy now s).2.2.1
  | key clk str => exact (keypress_loop_buffer cfg clk 0 str s).2.2.2.1
  | timer => exact (timer_fire_buffer cfg s).2.2.2.1

theorem step_inv (cfg : Config) (op : Op) (s : State) (h : inv s) : inv (step cfg op s) := by
  cases op with
  | ingest a => exact fill_inv _ h
  | drain busy now a =>
    have h1 : inv (uart_receive a (term_main_loop_consume cfg busy now s)) :=
      consume_inv cfg busy now s h
    exact fill_inv _ h1
  | key clk str =>
    obtain ⟨-, h2, h3, h4, -⟩ := keypress_loop_buffer cfg clk 0 str s
    simp only [inv, step, _keypress_handler, h2, h3, h4]
    exact h
  | timer =>
    obtain ⟨-, h2, h3, h4, -⟩ := timer_fire_buffer cfg s
    simp only [inv, step, h2, h3, h4]
    exact h

theorem run_limit (cfg : Config) (ops : List Op) (s : State) :
    (run cfg ops s).uart_buffer_limit = s.uart_buffer_limit := by
  induction ops generalizing s with
  | nil => rfl
  | cons op ops ih => rw [run, ih, step_limit]

theorem run_inv (cfg : Config) (ops : List Op) (s : State) (h : inv s) : inv (run cfg ops s) := by
  induction ops generalizing s with
  | nil => exact h
  | cons op ops ih => exact ih _ (step_inv cfg op s h)

theorem init_inv (s : State) : inv (initialize_uart_irq s) := by
  simp [inv, initialize_uart_irq, emit, UART_BUFFER_SIZE]

theorem init_limit (s : State) : (initialize_uart_irq s).uart_buffer_limit = 16384 := rfl

/-! ## Cursors after ingestion -/

theorem body_end (dr : Nat) (s : State) (h : inv s) :
    (uart_fill_queue_body dr s).uart_buffer_end
      = (s.uart_buffer_end + 1) % s.uart_buffer_limit := by
  obtain ⟨h1, h2⟩ := h
  simp only [uart_fill_queue_body]
  split_ifs with hge
  · have : s.uart_buffer_end + 1 = s.uart_buffer_limit := by omega
    rw [this, Nat.mod_self]
  · rw [Nat.mod_eq_of_lt (by omega)]

theorem loop_end (rx : List Nat) (s : State) (h : inv s) :
    (uart_fill_queue_loop rx s).uart_buffer_end
      = (s.uart_buffer_end + rx.length) % s.uart_buffer_limit := by
  induction rx generalizing s with
  | nil =>
    obtain ⟨h1, h2⟩ := h
    simp only [uart_fill_queue_loop, List.length_nil, Nat.add_zero]
    rw [Nat.mod_eq_of_lt h2]
  | cons dr rest ih =>
    have hi : inv { s with rx := rest } := h
    rw [uart_fill_queue_loop, ih _ (body_inv dr _ hi), body_end dr _ hi, body_limit]
    simp only [List.length_cons]
    rw [Nat.mod_add_mod]
    congr 1
    omega

theorem fill_end (s : State) (h : inv s) :
    (uart_fill_queue s).uart_buffer_end
      = (s.uart_buffer_end + s.rx.length) % s.uart_buffer_limit :=
  loop_end s.rx s h

theorem fill_count (s : State) (h : inv s) :
    unread_count (uart_fill_queue s)
      = min (unread_count s + s.rx.length) (s.uart_buffer_limit - 1) := by
  rw [← unread_length, fill_unread s h, lastN_length]
  simp [unread_length, bytes_of]

theorem body_start_of_fit (dr : Nat) (s : State) (h : inv s)
    (hfit : unread_count s + 1 ≤ s.uart_buffer_limit - 1) :
    (uart_fill_queue_body dr s).uart_buffer_start = s.uart_buffer_start ∧
    unread_count (uart_fill_queue_body dr s) = unread_count s + 1 := by
  obtain ⟨h1, h2⟩ := h
  simp only [unread_count, uart_fill_queue_body] at hfit ⊢
  constructor <;> split_ifs at hfit ⊢ <;> omega

theorem loop_start_of_fit (rx : List Nat) (s : State) (h : inv s)
    (hfit : unread_count s + rx.length ≤ s.uart_buffer_limit - 1) :
    (uart_fill_queue_loop rx s).uart_buffer_start = s.uart_buffer_start := by
  induction rx generalizing s with
  | nil => rfl
  | cons dr rest ih =>
    have hi : inv { s with rx := rest } := h
    simp only [List.length_cons] at hfit
    have hc : unread_count { s with rx := rest } = unread_count s := rfl
    have hl : ({ s with rx := rest } : State).uart_buffer_limit = s.uart_buffer_limit := rfl
    have hst : ({ s with rx := rest } : State).uart_buffer_start = s.uart_buffer_start := rfl
    rw [uart_fill_queue_loop]
    generalize ({ s with rx := rest } : State) = t at hi hc hl hst ⊢
    obtain ⟨b1, b2⟩ := body_start_of_fit dr t hi (by omega)
    rw [ih _ (body_inv dr _ hi) (by rw [b2, body_limit]; omega), b1, hst]

theorem fill_start_of_fit (s : State) (h : inv s)
    (hfit : unread_count s + s.rx.length ≤ s.uart_buffer_limit - 1) :
    (uart_fill_queue s).uart_buffer_start = s.uart_buffer_start :=
  loop_start_of_fit s.rx s h hfit

/-- A state with the invariant is determined, as far as the read cursor goes, by the
write cursor and the number of unread bytes. -/
theorem start_of_count (s : State) (h : inv s) :
    s.uart_buffer_start
      = if unread_count s ≤ s.uart_buffer_end then s.uart_buffer_end - unread_count s
        else s.uart_buffer_end + s.uart_buffer_limit - unread_count s := by
  obtain ⟨h1, h2⟩ := h
  simp only [unread_count]
  split_ifs <;> omega

/-- One UART interrupt, seen through the cursors and the unread contents. -/
theorem ingest_effect (s : State) (a : List Nat) (h : inv s) (hrx : s.rx = []) :
    inv (uart_fill_queue (uart_receive a s)) ∧
    (uart_fill_queue (uart_receive a s)).rx = [] ∧
    (uart_fill_queue (uart_receive a s)).uart_buffer_limit = s.uart_buffer_limit ∧
    (uart_fill_queue (uart_receive a s)).uart_buffer_end
      = (s.uart_buffer_end + a.length) % s.uart_buffer_limit ∧
    unread_count (uart_fill_queue (uart_receive a s))
      = min (unread_count s + a.length) (s.uart_buffer_limit - 1) ∧
    unread (uart_fill_queue (uart_receive a s))
      = lastN (s.uart_buffer_limit - 1) (unread s ++ bytes_of a) := by
  have hi : inv (uart_receive a s) := h
  have hr : (uart_receive a s).rx = a := by simp [uart_receive, hrx]
  have h1 := fill_end _ hi
  have h2 := fill_count _ hi
  have h3 := fill_unread _ hi
  rw [hr] at h1 h2 h3
  exact ⟨fill_inv _ hi, (fill_frame _).2.2.2.2.2.2.2, (fill_frame _).1, h1, h2, h3⟩

/-- Ingesting 16384 bytes and then one more into the freshly initialised buffer. -/
theorem overwrite_effect (cfg : Config) (s0 : State) (h0 : s0.rx = []) (bs : List Nat) (b : Nat)
    (hlen : bs.length = 16384) :
    (run cfg [Op.ingest bs] (initialize_uart_irq s0)).uart_buffer_start = 1 ∧
    unread (run cfg [Op.ingest bs] (initialize_uart_irq s0)) = (bytes_of bs).drop 1 ∧
    (run cfg [Op.ingest bs, Op.ingest [b]] (initialize_uart_irq s0)).uart_buffer_start = 2 ∧
    (run cfg [Op.ingest bs, Op.ingest [b]] (initialize_uart_irq s0)).uart_buffer_end = 1 ∧
    unread (run cfg [Op.ingest bs, Op.ingest [b]] (initialize_uart_irq s0))
      = (bytes_of (bs ++ [b])).drop 2 := by
  have hi0 := init_inv s0
  have hrx0 : (initialize_uart_irq s0).rx = [] := h0
  have hl0 : (initialize_uart_irq s0).uart_buffer_limit = 16384 := rfl
  have he0 : (initialize_uart_irq s0).uart_buffer_end = 0 := rfl
  have hc0 : unread_count (initialize_uart_irq s0) = 0 := rfl
  have hu0 : unread (initialize_uart_irq s0) = [] := rfl
  obtain ⟨hi1, hrx1, hl1, he1, hc1, hu1⟩ := ingest_effect _ bs hi0 hrx0
  obtain ⟨hi2, -, hl2, he2, hc2, hu2⟩ := ingest_effect _ [b] hi1 hrx1
  have hs1 := start_of_count _ hi1
  have hs2 := start_of_count _ hi2
  rw [hl0] at hl1 he1 hc1 hu1
  rw [hl1] at hl2 he2 hc2 hu2
  rw [he0, hlen] at he1
  rw [hc0, hlen] at hc1
  rw [he1] at he2
  rw [hc1] at hc2
  rw [hu0] at hu1
  rw [hu1] at hu2
  simp only [List.length_singleton] at he2 hc2
  have hb : (bytes_of bs).length = 16384 := by simp [bytes_of, hlen]
  have hb2 : (bytes_of (bs ++ [b])).length = 16385 := by simp [bytes_of, hlen]
  refine ⟨?_, ?_, ?_, ?_, ?_⟩
  · show (uart_fill_queue (uart_receive bs (initialize_uart_irq s0))).uart_buffer_start = 1
    rw [hs1, hl1]
    split_ifs <;> omega
  · show unread (uart_fill_queue (uart_receive bs (initialize_uart_irq s0))) = _
    rw [hu1, List.nil_append, lastN, hb]
  · show (uart_fill_queue (uart_receive [b] (uart_fill_queue
        (uart_receive bs (initialize_uart_irq s0))))).uart_buffer_start = 2
    rw [hs2, hl2]
    split_ifs <;> omega
  · show (uart_fill_queue (uart_receive [b] (uart_fill_queue
        (uart_receive bs (initialize_uart_irq s0))))).uart_buffer_end = 1
    omega
  · show unread (uart_fill_queue (uart_receive [b] (uart_fill_queue
        (uart_receive bs (initialize_uart_irq s0))))) = _
    rw [hu2, List.nil_append, lastN_lastN_append]
    have : bytes_of bs ++ bytes_of [b] = bytes_of (bs ++ [b]) := by simp [bytes_of]
    rw [this, lastN, hb2]

/-! ## What one iteration of the main loop records -/

theorem cstr_byte (b : Nat) : cstr [b, 0] = if b = 0 then [] else [b] := by
  by_cases h : b = 0 <;> simp [cstr, List.takeWhile_cons, h]

theorem cstr_byte_length (b : Nat) : (cstr [b, 0]).length ≤ 1 := by
  rw [cstr_byte]
  split_ifs <;> simp

theorem consume_trace (cfg : Config) (busy : Bool) (now : Nat) (s : State) :
    ∃ out : List Nat, out.length ≤ 1 ∧
      ((term_main_loop_consume cfg busy now s).trace = s.trace ∨
       (term_main_loop_consume cfg busy now s).trace
         = s.trace ++ [Event.gfx_term_putstring out]) := by
  simp only [term_main_loop_consume]
  split_ifs <;>
    first
    | exact ⟨_, cstr_byte_length _, Or.inr rfl⟩
    | exact ⟨[], Nat.zero_le _, Or.inl rfl⟩

theorem iter_trace (cfg : Config) (busy : Bool) (now : Nat) (arrivals : List Nat) (s : State) :
    (term_main_loop_iter cfg busy now arrivals s).trace
      = (term_main_loop_consume cfg busy now s).trace
          ++ [Event.W32 s.UART0_ITCR 0xFFFFFFFF, Event.timer_poll] := by
  have hf := fill_frame (uart_receive arrivals (term_main_loop_consume cfg busy now s))
  have hc := (consume_frame cfg busy now s).2.2.2.2.2.2.1
  simp only [term_main_loop_iter, timer_poll, emit, hf.2.2.2.2.2.2.1]
  simp [uart_receive, hc]

theorem iter_rx (cfg : Config) (busy : Bool) (now : Nat) (arrivals : List Nat) (s : State) :
    (term_main_loop_iter cfg busy now arrivals s).rx = [] :=
  (fill_frame (uart_receive arrivals (term_main_loop_consume cfg busy now s))).2.2.2.2.2.2.2

/-! ## Reading the trace -/

theorem putstrings_append (a b : List Event) :
    putstrings (a ++ b) = putstrings a ++ putstrings b := by
  induction a with
  | nil => rfl
  | cons e es ih => cases e <;> simp [putstrings, ih]

theorem transmitted_append (a b : List Event) :
    transmitted (a ++ b) = transmitted a ++ transmitted b := by
  induction a with
  | nil => rfl
  | cons e es ih => cases e <;> simp [transmitted, ih]

theorem rendered_eq_flatten (t : List Event) : rendered t = (putstrings t).flatten := by
  induction t with
  | nil => rfl
  | cons e es ih => cases e <;> simp [rendered, putstrings, ih]

/-! ## The consume step in detail -/

/-- What an active consume step hands to `gfx_term_putstring` and what it leaves in
`backspace_n_skip`. -/
theorem consume_render (cfg : Config) (now : Nat) (s : State)
    (hne : s.uart_buffer_start ≠ s.uart_buffer_end) :
    (term_main_loop_consume cfg false now s).trace
      = s.trace ++ [Event.gfx_term_putstring
          (if cfg.SKIP_BACKSPACE_ECHO = true
              ∧ 0 < (if sub32 now s.last_backspace_t > 50000 then 0 else s.backspace_n_skip) then
            (if (if sub32 now s.last_backspace_t > 50000 then 0 else s.backspace_n_skip) - 1 = 0
              then [0x7F] else [])
          else cstr [s.mem s.uart_buffer_start, 0])] ∧
    (term_main_loop_consume cfg false now s).backspace_n_skip
      = (if cfg.SKIP_BACKSPACE_ECHO = true then
          (if sub32 now s.last_backspace_t > 50000 then 0 else s.backspace_n_skip) - 1
        else s.backspace_n_skip) := by
  simp only [term_main_loop_consume]
  split_ifs <;> simp_all [emit, cstr]

/-- One iteration of `term_main_loop` with the DMA engine idle and a byte to consume. -/
theorem drain_effect (cfg : Config) (now : Nat) (a : List Nat) (s : State) (b : Nat)
    (rest : List Nat) (h : inv s) (hrx : s.rx = []) (hu : unread s = b :: rest) :
    s.uart_buffer_start ≠ s.uart_buffer_end ∧
    s.mem s.uart_buffer_start = b ∧
    inv (term_main_loop_iter cfg false now a s) ∧
    (term_main_loop_iter cfg false now a s).rx = [] ∧
    (term_main_loop_iter cfg false now a s).uart_buffer_limit = s.uart_buffer_limit ∧
    unread (term_main_loop_iter cfg false now a s)
      = lastN (s.uart_buffer_limit - 1) (rest ++ bytes_of a) ∧
    (term_main_loop_iter cfg false now a s).last_backspace_t = s.last_backspace_t ∧
    (term_main_loop_iter cfg false now a s).backspace_n_skip
      = (term_main_loop_consume cfg false now s).backspace_n_skip ∧
    putstrings (term_main_loop_iter cfg false now a s).trace
      = putstrings (term_main_loop_consume cfg false now s).trace := by
  have hne : s.uart_buffer_start ≠ s.uart_buffer_end := by
    intro e
    rw [(unread_eq_nil_iff s h).mpr e] at hu
    cases hu
  have hcu := consume_unread cfg now s h hne
  rw [hu] at hcu
  injection hcu with hb hrest
  obtain ⟨-, -, cl, crx, -, -, -, clast⟩ := consume_frame cfg false now s
  have hci := consume_inv cfg false now s h
  obtain ⟨i1, i2, i3, -, -, i6⟩ :=
    ingest_effect (term_main_loop_consume cfg false now s) a hci (crx.trans hrx)
  obtain ⟨-, -, -, f4, f5, -⟩ :=
    fill_frame (uart_receive a (term_main_loop_consume cfg false now s))
  refine ⟨hne, hb.symm, i1, i2, i3.trans cl, ?_, f5.trans clast, f4, ?_⟩
  · show unread (uart_fill_queue (uart_receive a (term_main_loop_consume cfg false now s))) = _
    rw [i6, cl, ← hrest]
  · rw [iter_trace, putstrings_append]
    simp [putstrings]

/-! ## The keyboard bridge on the UART transmit side -/

theorem keypress_char_transmitted (cfg : Config) (now ch : Nat) (s : State)
    (h1 : cfg.SEND_CR_LF = true) (h2 : cfg.SEND_CR_ONLY = false)
    (h3 : cfg.SWAP_DEL_WITH_BACKSPACE = false) :
    transmitted (_keypress_char cfg now ch s).trace
      = transmitted s.trace ++ (if ch = 10 then [13, 10] else [ch]) := by
  simp only [_keypress_char, emit, h1, h2, h3]
  split_ifs <;> simp_all [transmitted_append, transmitted]

theorem keypress_loop_transmitted (cfg : Config) (clk : Nat → Nat) (i : Nat) (str : List Nat)
    (s : State) (h1 : cfg.SEND_CR_LF = true) (h2 : cfg.SEND_CR_ONLY = false)
    (h3 : cfg.SWAP_DEL_WITH_BACKSPACE = false) :
    transmitted (_keypress_loop cfg clk i str s).trace
      = transmitted s.trace ++ crlf_expand (cstr str) := by
  induction str generalizing i s with
  | nil => simp [_keypress_loop, cstr, crlf_expand]
  | cons ch rest ih =>
    simp only [_keypress_loop]
    by_cases hz : ch = 0
    · simp [hz, cstr, crlf_expand]
    · rw [if_neg hz, ih, keypress_char_transmitted cfg _ _ _ h1 h2 h3]
      have hc : cstr (ch :: rest) = ch :: cstr rest := by
        simp [cstr, List.takeWhile_cons, hz]
      rw [hc, crlf_expand]
      split_ifs <;> simp

theorem crlf_expand_length (t : List Nat) :
    (crlf_expand t).length = t.length + t.count 10 := by
  induction t with
  | nil => rfl
  | cons c cs ih =>
    rw [crlf_expand]
    by_cases h : c = 10
    · subst h
      simp [ih]
      omega
    · have hne : (10 : Nat) ≠ c := fun e => h e.symm
      rw [if_neg h, List.length_cons, ih, List.length_cons, List.count_cons_of_ne hne]
      omega

/-! ## The heartbeat -/

theorem heartbeat_handler_effect (cfg : Config) (t : State) :
    (_heartbeat_timer_handler cfg t).led_status = (if t.led_status ≠ 0 then 0 else 1) ∧
    (_heartbeat_timer_handler cfg t).timers
      = t.timers ++ [(cfg.HEARTBEAT_FREQUENCY, Handler.heartbeat)] ∧
    (_heartbeat_timer_handler cfg t).trace
      = t.trace ++ [Event.W32 (if t.led_status ≠ 0 then GPCLR0 else GPSET0) 0x10000,
          Event.attach_timer_handler cfg.HEARTBEAT_FREQUENCY Handler.heartbeat] := by
  simp only [_heartbeat_timer_handler, attach_timer_handler, emit]
  split_ifs <;> simp

theorem entry_point_heartbeat (cfg : Config) (gpfsel1 : Nat) (s : State) :
    (entry_point cfg gpfsel1 s).led_status = 0 ∧
    (entry_point cfg gpfsel1 s).timers = [(cfg.HEARTBEAT_FREQUENCY, Handler.heartbeat)] := by
  simp [entry_point, initialize_uart_irq, attach_timer_handler, timers_init, heartbeat_init,
    emit]

theorem fire_effect (cfg : Config) (k : Nat) (s : State) (h0 : s.led_status = 0)
    (ht : s.timers = [(cfg.HEARTBEAT_FREQUENCY, Handler.heartbeat)]) :
    (fire cfg k s).led_status = k % 2 ∧
    (fire cfg k s).timers = [(cfg.HEARTBEAT_FREQUENCY, Handler.heartbeat)] := by
  induction k with
  | zero => exact ⟨h0, ht⟩
  | succ k ih =>
    obtain ⟨i1, i2⟩ := ih
    obtain ⟨e1, e2, -⟩ :=
      heartbeat_handler_effect cfg { fire cfg k s with timers := [] }
    simp only [fire, timer_fire, i2, Handler.run]
    refine ⟨?_, e2⟩
    rw [e1]
    show (if (fire cfg k s).led_status ≠ 0 then 0 else 1) = (k + 1) % 2
    rw [i1]
    split_ifs <;> omega

/-! ## Rendering of consumed bytes -/

/-- One iteration of `term_main_loop` with the DMA engine idle, a byte `b` to consume
and room for the arrivals: cursors, unread contents, suppression state and what is
handed to `gfx_term_putstring`. -/
theorem drain_render (cfg : Config) (now : Nat) (a : List Nat) (s : State) (b : Nat)
    (rest : List Nat) (h : inv s) (hrx : s.rx = []) (hu : unread s = b :: rest)
    (hfit : rest.length + a.length ≤ s.uart_buffer_limit - 1) :
    inv (term_main_loop_iter cfg false now a s) ∧
    (term_main_loop_iter cfg false now a s).rx = [] ∧
    (term_main_loop_iter cfg false now a s).uart_buffer_limit = s.uart_buffer_limit ∧
    unread (term_main_loop_iter cfg false now a s) = rest ++ bytes_of a ∧
    (term_main_loop_iter cfg false now a s).last_backspace_t = s.last_backspace_t ∧
    (term_main_loop_iter cfg false now a s).backspace_n_skip
      = (if cfg.SKIP_BACKSPACE_ECHO = true then
          (if sub32 now s.last_backspace_t > 50000 then 0 else s.backspace_n_skip) - 1
        else s.backspace_n_skip) ∧
    putstrings (term_main_loop_iter cfg false now a s).trace
      = putstrings s.trace ++
          [if cfg.SKIP_BACKSPACE_ECHO = true
              ∧ 0 < (if sub32 now s.last_backspace_t > 50000 then 0 else s.backspace_n_skip) then
            (if (if sub32 now s.last_backspace_t > 50000 then 0 else s.backspace_n_skip) - 1 = 0
              then [0x7F] else [])
          else cstr [b, 0]] := by
  obtain ⟨hne, hb, d1, d2, d3, d4, d5, d6, d7⟩ := drain_effect cfg now a s b rest h hrx hu
  obtain ⟨r1, r2⟩ := consume_render cfg now s hne
  refine ⟨d1, d2, d3, ?_, d5, d6.trans r2, ?_⟩
  · rw [d4, lastN_of_length_le]
    simp only [List.length_append, bytes_of, List.length_map]
    exact hfit
  · rw [d7, r1, putstrings_append, hb]
    rfl

theorem unread_congr (s t : State) (h1 : t.mem = s.mem)
    (h2 : t.uart_buffer_start = s.uart_buffer_start) (h3 : t.uart_buffer_end = s.uart_buffer_end)
    (h4 : t.uart_buffer_limit = s.uart_buffer_limit) : unread t = unread s := by
  simp only [unread, unread_count, h1, h2, h3, h4]

theorem sub32_mod (a b : Nat) : sub32 a (b % 2 ^ 32) = sub32 a b := by
  simp only [sub32, Nat.mod_mod]

/-! ## The key press DEL -/

theorem keypress_char_del (cfg : Config) (now : Nat) (s : State)
    (hskip : cfg.SKIP_BACKSPACE_ECHO = true) (hswap : cfg.SWAP_DEL_WITH_BACKSPACE = false) :
    _keypress_char cfg now 0x7F s
      = emit (Event.uart_write [0x7F])
          { s with backspace_n_skip := 2, last_backspace_t := now % 2 ^ 32 } := by
  have e1 : ((0x7F : Nat) == 10) = false := by decide
  have e2 : ((0x7F : Nat) == 0x8) = false := by decide
  have e3 : ((0x7F : Nat) == 0x7F) = true := by decide
  simp only [_keypress_char, hskip, hswap, e1, e2, e3, Bool.and_false, Bool.and_true,
    Bool.false_and, Bool.true_and, if_false, if_true, Bool.false_eq_true]

theorem keypress_del_effect (cfg : Config) (clk : Nat → Nat) (s : State)
    (hskip : cfg.SKIP_BACKSPACE_ECHO = true) (hswap : cfg.SWAP_DEL_WITH_BACKSPACE = false) :
    _keypress_handler cfg clk [0x7F, 0] s
      = emit (Event.uart_write [0x7F])
          { s with backspace_n_skip := 2, last_backspace_t := clk 0 % 2 ^ 32 } := by
  have hz : ¬ ((0x7F : Nat) = 0) := by decide
  simp only [_keypress_handler, _keypress_loop, if_neg hz, if_true,
    keypress_char_del cfg _ _ hskip hswap]

/-! ## Draining to completion -/

theorem cstr_flatten (l : List Nat) :
    (l.map (fun b => cstr [b, 0])).flatten = l.filter (fun b => b != 0) := by
  induction l with
  | nil => rfl
  | cons b bs ih =>
    rw [List.map_cons, List.flatten_cons, ih, cstr_byte, List.filter_cons]
    by_cases h : b = 0 <;> simp [h]

theorem drain_complete (cfg : Config) (now : Nat → Nat) (fuel : Nat) (s : State)
    (h : inv s) (hrx : s.rx = []) (hn : s.backspace_n_skip = 0)
    (hfuel : unread_count s ≤ fuel) :
    inv (drain_to_completion cfg now fuel s) ∧
    (drain_to_completion cfg now fuel s).rx = [] ∧
    (drain_to_completion cfg now fuel s).uart_buffer_limit = s.uart_buffer_limit ∧
    (drain_to_completion cfg now fuel s).uart_buffer_start
      = (drain_to_completion cfg now fuel s).uart_buffer_end ∧
    (drain_to_completion cfg now fuel s).backspace_n_skip = 0 ∧
    putstrings (drain_to_completion cfg now fuel s).trace
      = putstrings s.trace ++ (unread s).map (fun b => cstr [b, 0]) := by
  induction fuel generalizing s with
  | zero =>
    have hu : unread s = [] := by
      rw [← List.length_eq_zero, unread_length]; omega
    refine ⟨h, hrx, rfl, (unread_eq_nil_iff s h).mp hu, hn, ?_⟩
    rw [hu]; simp [drain_to_completion]
  | succ n ih =>
    by_cases he : s.uart_buffer_start = s.uart_buffer_end
    · have hu : unread s = [] := (unread_eq_nil_iff s h).mpr he
      have e : drain_to_completion cfg now (n + 1) s = s := by
        simp only [drain_to_completion, if_pos he]
      rw [e]
      refine ⟨h, hrx, rfl, he, hn, ?_⟩
      rw [hu]; simp
    · have e : drain_to_completion cfg now (n + 1) s
          = drain_to_completion cfg now n (term_main_loop_iter cfg false (now n) [] s) := by
        simp only [drain_to_completion, if_neg he]
      rw [e]
      cases hu : unread s with
      | nil => exact absurd ((unread_eq_nil_iff s h).mp hu) he
      | cons b rest =>
        have hlen : rest.length + 1 = unread_count s := by
          rw [← unread_length, hu]; rfl
        have hlt := unread_count_lt s h
        obtain ⟨d1, d2, d3, d4, -, d6, d7⟩ :=
          drain_render cfg (now n) [] s b rest h hrx hu (by simp only [List.length_nil]; omega)
        have d4' : unread (term_main_loop_iter cfg false (now n) [] s) = rest := by
          rw [d4]; simp [bytes_of]
        have d6' : (term_main_loop_iter cfg false (now n) [] s).backspace_n_skip = 0 := by
          rw [d6, hn]; split_ifs <;> rfl
        have d7' : putstrings (term_main_loop_iter cfg false (now n) [] s).trace
            = putstrings s.trace ++ [cstr [b, 0]] := by
          rw [d7, hn]; simp
        obtain ⟨i1, i2, i3, i4, i5, i6⟩ := ih _ d1 d2 d6'
          (by rw [← unread_length, d4']; omega)
        refine ⟨i1, i2, i3.trans d3, i4, i5, ?_⟩
        rw [i6, d7', d4']
        simp

theorem ingest_and_drain_effect (cfg : Config) (now : Nat → Nat) (batches : List (List Nat))
    (s : State) (h : inv s) (hrx : s.rx = [])
    (he : s.uart_buffer_start = s.uart_buffer_end) (hn : s.backspace_n_skip = 0) :
    (ingest_and_drain cfg now batches s).uart_buffer_start
      = (ingest_and_drain cfg now batches s).uart_buffer_end ∧
    putstrings (ingest_and_drain cfg now batches s).trace
      = putstrings s.trace ++
          ((batches.map (fun b => lastN (s.uart_buffer_limit - 1) (bytes_of b))).flatten).map
            (fun b => cstr [b, 0]) := by
  induction batches generalizing s with
  | nil => exact ⟨he, by simp [ingest_and_drain]⟩
  | cons batch more ih =>
    have hu : unread s = [] := (unread_eq_nil_iff s h).mpr he
    obtain ⟨g1, g2, g3, -, -, g6⟩ := ingest_effect s batch h hrx
    obtain ⟨-, -, -, f4, -, -, f7, -⟩ := fill_frame (uart_receive batch s)
    have f4' : (uart_fill_queue (uart_receive batch s)).backspace_n_skip = 0 := f4.trans hn
    have f7' : putstrings (uart_fill_queue (uart_receive batch s)).trace = putstrings s.trace := by
      rw [f7, putstrings_append]
      simp [putstrings, uart_receive]
    have hlt := unread_count_lt _ g1
    obtain ⟨c1, c2, c3, c4, c5, c6⟩ :=
      drain_complete cfg now s.uart_buffer_limit _ g1 g2 f4' (by omega)
    obtain ⟨i1, i2⟩ := ih _ c1 c2 c4 c5
    rw [hu, List.nil_append] at g6
    refine ⟨i1, ?_⟩
    show putstrings (ingest_and_drain cfg now more _).trace = _
    rw [i2, c6, f7', g6, c3, g3]
    simp


theorem init_putstrings (s0 : State) :
    putstrings (initialize_uart_irq s0).trace = putstrings s0.trace := by
  simp [initialize_uart_irq, emit, putstrings_append, putstrings]

/-- Ingestions into the freshly initialised buffer, each drained to completion. -/
theorem init_ingest_and_drain (cfg : Config) (now : Nat → Nat) (batches : List (List Nat))
    (s0 : State) (h0 : s0.rx = []) (hn : s0.backspace_n_skip = 0) :
    (ingest_and_drain cfg now batches (initialize_uart_irq s0)).uart_buffer_start
      = (ingest_and_drain cfg now batches (initialize_uart_irq s0)).uart_buffer_end ∧
    putstrings (ingest_and_drain cfg now batches (initialize_uart_irq s0)).trace
      = putstrings s0.trace ++
          ((batches.map (fun b => lastN 16383 (bytes_of b))).flatten).map
            (fun b => cstr [b, 0]) := by
  obtain ⟨e1, e2⟩ := ingest_and_drain_effect cfg now batches (initialize_uart_irq s0)
    (init_inv s0) h0 rfl hn
  rw [init_putstrings] at e2
  exact ⟨e1, e2⟩

/-! ## First in, first out -/

theorem bytes_of_append (a b : List Nat) : bytes_of (a ++ b) = bytes_of a ++ bytes_of b := by
  simp [bytes_of]

/-- One step of a run that fits, seen from the unread contents. -/
theorem fifo_step (cfg : Config) (op : Op) (s : State) (h : inv s) (hrx : s.rx = [])
    (hfit : fits cfg [op] s) :
    inv (step cfg op s) ∧ (step cfg op s).rx = [] ∧
    unread s ++ bytes_of (arrivals_of op) = consumed_by op s ++ unread (step cfg op s) := by
  cases op with
  | ingest a =>
    obtain ⟨i1, i2, -, -, -, i6⟩ := ingest_effect s a h hrx
    refine ⟨i1, i2, ?_⟩
    show _ = [] ++ unread (uart_fill_queue (uart_receive a s))
    rw [i6, lastN_of_length_le, List.nil_append]
    · rfl
    · have hf := hfit.1
      simp only [hrx, List.nil_append] at hf
      simp only [List.length_append, unread_length, bytes_of, List.length_map]
      exact hf
  | drain busy now a =>
    have hf := hfit.1
    simp only [hrx, List.nil_append] at hf
    by_cases hidle : busy = true ∨ s.uart_buffer_start = s.uart_buffer_end
    · have hc := consume_idle cfg busy now s hidle
      rw [hc] at hf
      obtain ⟨i1, i2, -, -, -, i6⟩ := ingest_effect s a h hrx
      have hs : step cfg (Op.drain busy now a) s = timer_poll (uart_fill_queue (uart_receive a s)) := by
        show timer_poll (uart_fill_queue (uart_receive a (term_main_loop_consume cfg busy now s))) = _
        rw [hc]
      have hcb : consumed_by (Op.drain busy now a) s = [] := by
        rcases hidle with hb | he
        · simp [consumed_by, hb]
        · simp [consumed_by, he]
      rw [hs, hcb]
      refine ⟨i1, i2, ?_⟩
      show _ = [] ++ unread (uart_fill_queue (uart_receive a s))
      rw [i6, lastN_of_length_le, List.nil_append]
      · rfl
      · simp only [List.length_append, unread_length, bytes_of, List.length_map]
        exact hf
    · have hb1 : busy = false := by
        cases busy <;> simp_all
      subst hb1
      have hne : s.uart_buffer_start ≠ s.uart_buffer_end := fun e => hidle (Or.inr e)
      cases hu : unread s with
      | nil => exact absurd ((unread_eq_nil_iff s h).mp hu) hne
      | cons b rest =>
        have hcu := consume_unread cfg now s h hne
        rw [hu] at hcu
        injection hcu with hb hrest
        have hlen : unread_count (term_main_loop_consume cfg false now s) = rest.length := by
          rw [← unread_length, ← hrest]
        obtain ⟨d1, d2, -, d4, -⟩ := drain_render cfg now a s b rest h hrx hu (by omega)
        refine ⟨d1, d2, ?_⟩
        show _ = consumed_by (Op.drain false now a) s ++ unread (term_main_loop_iter cfg false now a s)
        rw [d4]
        simp [consumed_by, hne, hb, arrivals_of]
  | key clk str =>
    obtain ⟨k1, k2, k3, k4, k5⟩ := keypress_loop_buffer cfg clk 0 str s
    refine ⟨step_inv cfg _ s h, k5.trans hrx, ?_⟩
    show _ = [] ++ unread (_keypress_loop cfg clk 0 str s)
    rw [unread_congr s _ k1 k2 k3 k4]
    simp [arrivals_of, bytes_of]
  | timer =>
    obtain ⟨k1, k2, k3, k4, k5⟩ := timer_fire_buffer cfg s
    refine ⟨step_inv cfg _ s h, k5.trans hrx, ?_⟩
    show _ = [] ++ unread (timer_fire cfg s)
    rw [unread_congr s _ k1 k2 k3 k4]
    simp [arrivals_of, bytes_of]

/-- A run that fits loses nothing: what was unread at the start followed by what is
ingested is what is drained followed by what is unread at the end. -/
theorem fifo_run (cfg : Config) (ops : List Op) (s : State) (h : inv s) (hrx : s.rx = [])
    (hfit : fits cfg ops s) :
    (run cfg ops s).rx = [] ∧
    unread s ++ bytes_of (ops.map arrivals_of).flatten
      = drained cfg ops s ++ unread (run cfg ops s) := by
  induction ops generalizing s with
  | nil => exact ⟨hrx, by simp [bytes_of, drained, run]⟩
  | cons op ops ih =>
    obtain ⟨s1, s2, s3⟩ := fifo_step cfg op s h hrx ⟨hfit.1, trivial⟩
    obtain ⟨i1, i2⟩ := ih _ s1 s2 hfit.2
    refine ⟨i1, ?_⟩
    simp only [List.map_cons, List.flatten_cons, bytes_of_append, drained, run]
    rw [← List.append_assoc, s3, List.append_assoc, i2, List.append_assoc]


theorem ingested_two_batches (A B : List Nat) (n1 n2 : Nat) (s : State) (hrx : s.rx = []) :
    ingested [Op.ingest A, Op.drain false n1 [], Op.ingest B, Op.drain false n2 []] s
      = bytes_of A ++ bytes_of B := by
  simp [ingested, arrivals_of, hrx, bytes_of]

theorem consumed_by_drain (cfg : Config) (now : Nat) (a : List Nat) (s : State) (b : Nat)
    (rest : List Nat) (h : inv s) (hrx : s.rx = []) (hu : unread s = b :: rest) :
    consumed_by (Op.drain false now a) s = [b] := by
  obtain ⟨hne, hb, -⟩ := drain_effect cfg now a s b rest h hrx hu
  simp [consumed_by, hne, hb]

/-- The run `overflow_run` from the freshly initialised buffer: 16383 bytes "A" go in,
one is drained, 16383 bytes "B" go in and push out the 16382 unread "A", and the next
byte drained is a "B". -/
theorem overflow_run_drained :
    drained cfg_off overflow_run (initialize_uart_irq boot) = [0x41, 0x42] := by
  have hA : bytes_of (List.replicate 16383 0x41) = 0x41 :: List.replicate 16382 0x41 := by
    simp only [bytes_of, List.map_replicate]
    rfl
  have hB : bytes_of (List.replicate 16383 0x42) = 0x42 :: List.replicate 16382 0x42 := by
    simp only [bytes_of, List.map_replicate]
    rfl
  have hi0 := init_inv boot
  have hrx0 : (initialize_uart_irq boot).rx = [] := rfl
  have hu0 : unread (initialize_uart_irq boot) = [] := rfl
  have hl0 : (initialize_uart_irq boot).uart_buffer_limit = 16384 := rfl
  -- first ingestion
  obtain ⟨hi1, hrx1, hl1, -, -, hu1⟩ :=
    ingest_effect _ (List.replicate 16383 0x41) hi0 hrx0
  rw [hl0] at hl1 hu1
  rw [hu0, List.nil_append, hA, lastN_of_length_le _ _
    (by rw [List.length_cons, List.length_replicate])] at hu1
  -- first drain
  have hc1 := consumed_by_drain cfg_off 0 [] _ _ _ hi1 hrx1 hu1
  obtain ⟨-, -, hi2, hrx2, hl2, hu2, -⟩ := drain_effect cfg_off 0 [] _ _ _ hi1 hrx1 hu1
  rw [hl1] at hl2 hu2
  have hnil : bytes_of [] = [] := rfl
  rw [hnil, List.append_nil, lastN_of_length_le _ _
    (by rw [List.length_replicate]; decide)] at hu2
  -- second ingestion
  obtain ⟨hi3, hrx3, -, -, -, hu3⟩ :=
    ingest_effect _ (List.replicate 16383 0x42) hi2 hrx2
  rw [hl2, hu2] at hu3
  have hdrop : lastN (16384 - 1)
      (List.replicate 16382 0x41 ++ bytes_of (List.replicate 16383 0x42))
      = 0x42 :: List.replicate 16382 0x42 := by
    have hlen : (List.replicate 16382 0x41
        ++ bytes_of (List.replicate 16383 0x42)).length - (16384 - 1) = 16382 := by
      rw [hB, List.length_append, List.length_cons, List.length_replicate,
        List.length_replicate]
    have hle : 16382 ≤ (List.replicate 16382 0x41).length := by
      rw [List.length_replicate]
    rw [lastN, hlen, List.drop_append_of_le_length hle, hB, List.drop_replicate]
    rfl
  rw [hdrop] at hu3
  -- second drain
  have hc3 := consumed_by_drain cfg_off 0 [] _ _ _ hi3 hrx3 hu3
  show [] ++ (consumed_by (Op.drain false 0 [])
      (uart_fill_queue (uart_receive (List.replicate 16383 0x41) (initialize_uart_irq boot)))
    ++ ([] ++ (consumed_by (Op.drain false 0 [])
      (uart_fill_queue (uart_receive (List.replicate 16383 0x42)
        (term_main_loop_iter cfg_off false 0 []
          (uart_fill_queue (uart_receive (List.replicate 16383 0x41)
            (initialize_uart_irq boot)))))) ++ []))) = _
  rw [hc1, hc3]
  rfl

/-! ## Backspace-echo suppression along a run -/

theorem ingest_skip_frame (a : List Nat) (s : State) :
    (uart_fill_queue (uart_receive a s)).last_backspace_t = s.last_backspace_t ∧
    (uart_fill_queue (uart_receive a s)).backspace_n_skip = s.backspace_n_skip ∧
    putstrings (uart_fill_queue (uart_receive a s)).trace = putstrings s.trace := by
  obtain ⟨-, -, -, f4, f5, -, f7, -⟩ := fill_frame (uart_receive a s)
  refine ⟨f5, f4, ?_⟩
  rw [f7, putstrings_append]
  simp [putstrings, uart_receive]

theorem timer_skip_frame (cfg : Config) (s : State) :
    (timer_fire cfg s).last_backspace_t = s.last_backspace_t ∧
    (timer_fire cfg s).backspace_n_skip = s.backspace_n_skip ∧
    putstrings (timer_fire cfg s).trace = putstrings s.trace := by
  simp only [timer_fire]
  split
  · simp
  · rename_i d h rest _
    cases h
    simp only [Handler.run, _heartbeat_timer_handler, attach_timer_handler, emit]
    split_ifs <;> simp [putstrings_append, putstrings]

theorem iter_skip_frame (cfg : Config) (busy : Bool) (now : Nat) (a : List Nat) (s : State) :
    (term_main_loop_iter cfg busy now a s).last_backspace_t = s.last_backspace_t ∧
    (term_main_loop_iter cfg busy now a s).backspace_n_skip
      = (term_main_loop_consume cfg busy now s).backspace_n_skip ∧
    putstrings (term_main_loop_iter cfg busy now a s).trace
      = putstrings (term_main_loop_consume cfg busy now s).trace := by
  obtain ⟨i1, i2, i3⟩ := ingest_skip_frame a (term_main_loop_consume cfg busy now s)
  obtain ⟨-, -, -, -, -, -, -, clast⟩ := consume_frame cfg busy now s
  refine ⟨i1.trans clast, i2, ?_⟩
  show putstrings (emit Event.timer_poll _).trace = _
  rw [← i3]
  simp [emit, putstrings_append, putstrings]

/-- With `SKIP_BACKSPACE_ECHO` on, what a run without key presses hands to
`gfx_term_putstring` is what the suppression rule makes of the consumed bytes. -/
theorem suppression_run (cfg : Config) (hskip : cfg.SKIP_BACKSPACE_ECHO = true) (ops : List Op)
    (s : State) (hnokey : ∀ op ∈ ops, is_key op = false) :
    putstrings (run cfg ops s).trace
      = putstrings s.trace
          ++ suppression s.last_backspace_t s.backspace_n_skip (consumptions cfg ops s) := by
  induction ops generalizing s with
  | nil => simp [run, consumptions, suppression]
  | cons op ops ih =>
    have hrest : ∀ o ∈ ops, is_key o = false := fun o ho => hnokey o (List.mem_cons_of_mem _ ho)
    have hop := hnokey op (List.mem_cons_self _ _)
    have hi := ih (step cfg op s) hrest
    cases op with
    | ingest a =>
      obtain ⟨f1, f2, f3⟩ := ingest_skip_frame a s
      show putstrings (run cfg ops (step cfg (Op.ingest a) s)).trace = _
      rw [hi]
      show putstrings (uart_fill_queue (uart_receive a s)).trace
        ++ suppression (uart_fill_queue (uart_receive a s)).last_backspace_t
            (uart_fill_queue (uart_receive a s)).backspace_n_skip _ = _
      rw [f1, f2, f3]
      rfl
    | timer =>
      obtain ⟨f1, f2, f3⟩ := timer_skip_frame cfg s
      show putstrings (run cfg ops (step cfg Op.timer s)).trace = _
      rw [hi]
      show putstrings (timer_fire cfg s).trace
        ++ suppression (timer_fire cfg s).last_backspace_t
            (timer_fire cfg s).backspace_n_skip _ = _
      rw [f1, f2, f3]
      rfl
    | key clk str => simp [is_key] at hop
    | drain busy now a =>
      obtain ⟨f1, f2, f3⟩ := iter_skip_frame cfg busy now a s
      show putstrings (run cfg ops (step cfg (Op.drain busy now a) s)).trace = _
      rw [hi]
      show putstrings (term_main_loop_iter cfg busy now a s).trace
        ++ suppression (term_main_loop_iter cfg busy now a s).last_backspace_t
            (term_main_loop_iter cfg busy now a s).backspace_n_skip _ = _
      rw [f1, f2, f3]
      by_cases hidle : busy = true ∨ s.uart_buffer_start = s.uart_buffer_end
      · rw [consume_idle cfg busy now s hidle]
        have hc : consumptions cfg (Op.drain busy now a :: ops) s
            = consumptions cfg ops (step cfg (Op.drain busy now a) s) := by
          rcases hidle with hb | he
          · simp [consumptions, hb]
          · simp [consumptions, he]
        rw [hc]
      · have hb1 : busy = false := by
          cases busy <;> simp_all
        subst hb1
        have hne : s.uart_buffer_start ≠ s.uart_buffer_end := fun e => hidle (Or.inr e)
        obtain ⟨r1, r2⟩ := consume_render cfg now s hne
        have hc : consumptions cfg (Op.drain false now a :: ops) s
            = (s.mem s.uart_buffer_start, now)
                :: consumptions cfg ops (step cfg (Op.drain false now a) s) := by
          simp [consumptions, hne]
        rw [hc, r1, r2, putstrings_append, suppression, List.append_assoc]
        congr 1
        simp only [hskip, if_true, true_and]
        by_cases hw : sub32 now s.last_backspace_t > 50000
        · simp [hw, putstrings]
        · by_cases h0 : s.backspace_n_skip = 0
          · simp [hw, h0, putstrings]
          · by_cases h1 : s.backspace_n_skip = 1
            · simp [hw, h1, putstrings]
            · have hpos : 0 < s.backspace_n_skip := Nat.pos_of_ne_zero h0
              have hne1 : ¬ s.backspace_n_skip - 1 = 0 := by omega
              simp [hw, h0, h1, hpos, hne1, putstrings]

theorem suppression_zero (t0 : Nat) (l : List (Nat × Nat)) :
    suppression t0 0 l = l.map (fun p => cstr [p.1, 0]) := by
  induction l with
  | nil => rfl
  | cons p more ih =>
    obtain ⟨b, t⟩ := p
    simp [suppression, ih]


theorem suppression_mod (t0 n : Nat) (l : List (Nat × Nat)) :
    suppression (t0 % 2 ^ 32) n l = suppression t0 n l := by
  induction l generalizing n with
  | nil => rfl
  | cons p more ih =>
    obtain ⟨b, t⟩ := p
    simp only [suppression, sub32_mod, ih]

/-- The key press "DEL" followed by a run without further key presses. -/
theorem del_then_run (cfg : Config) (clk : Nat → Nat) (ops : List Op) (s : State)
    (hskip : cfg.SKIP_BACKSPACE_ECHO = true) (hswap : cfg.SWAP_DEL_WITH_BACKSPACE = false)
    (hnokey : ∀ op ∈ ops, is_key op = false) :
    putstrings (run cfg (Op.key clk [0x7F, 0] :: ops) s).trace
      = putstrings s.trace
          ++ suppression (clk 0) 2 (consumptions cfg ops (_keypress_handler cfg clk [0x7F, 0] s)) := by
  have hk := keypress_del_effect cfg clk s hskip hswap
  have k5 : (_keypress_handler cfg clk [0x7F, 0] s).backspace_n_skip = 2 := by rw [hk]; rfl
  have k6 : (_keypress_handler cfg clk [0x7F, 0] s).last_backspace_t = clk 0 % 2 ^ 32 := by
    rw [hk]; rfl
  have k7 : putstrings (_keypress_handler cfg clk [0x7F, 0] s).trace = putstrings s.trace := by
    rw [hk]; simp [emit, putstrings_append, putstrings]
  have hr := suppression_run cfg hskip ops (_keypress_handler cfg clk [0x7F, 0] s) hnokey
  rw [k5, k6, k7, suppression_mod] at hr
  exact hr

/-! ## The read cursor after an ingestion that does not fit -/

theorem end_of_count (s : State) (h : inv s) :
    s.uart_buffer_end = (s.uart_buffer_start + unread_count s) % s.uart_buffer_limit := by
  obtain ⟨h1, h2⟩ := h
  simp only [unread_count]
  split_ifs with hle
  · have : s.uart_buffer_start + (s.uart_buffer_end - s.uart_buffer_start)
        = s.uart_buffer_end := by omega
    rw [this, Nat.mod_eq_of_lt h2]
  · have : s.uart_buffer_start + (s.uart_buffer_end + s.uart_buffer_limit - s.uart_buffer_start)
        = s.uart_buffer_end + s.uart_buffer_limit := by omega
    rw [this, Nat.add_mod_right, Nat.mod_eq_of_lt h2]

theorem fill_start_of_overflow (s : State) (h : inv s)
    (hov : unread_count s + s.rx.length > s.uart_buffer_limit - 1) :
    (uart_fill_queue s).uart_buffer_start
      = (s.uart_buffer_start + (unread_count s + s.rx.length - (s.uart_buffer_limit - 1)))
          % s.uart_buffer_limit := by
  have hi := fill_inv s h
  have he := fill_end s h
  have hc := fill_count s h
  have hl := (fill_frame s).1
  have hs := start_of_count _ hi
  have hend := end_of_count s h
  obtain ⟨h1, h2⟩ := h
  obtain ⟨g1, g2⟩ := hi
  rw [hl] at hs g1 g2
  have hc' : unread_count (uart_fill_queue s) = s.uart_buffer_limit - 1 := by
    rw [hc]; omega
  -- the read cursor ends one past the write cursor
  have hone : (uart_fill_queue s).uart_buffer_start
      = ((uart_fill_queue s).uart_buffer_end + 1) % s.uart_buffer_limit := by
    rw [hs, hc']
    split_ifs with hle
    · have : (uart_fill_queue s).uart_buffer_end + 1 = s.uart_buffer_limit := by omega
      rw [this, Nat.mod_self]
      omega
    · rw [Nat.mod_eq_of_lt (by omega)]
      omega
  have hsum : s.uart_buffer_start + unread_count s + s.rx.length + 1
      = s.uart_buffer_start
          + (unread_count s + s.rx.length - (s.uart_buffer_limit - 1))
          + s.uart_buffer_limit := by omega
  rw [hone, he, hend, Nat.mod_add_mod, Nat.add_assoc _ s.rx.length 1, Nat.mod_add_mod,
    ← Nat.add_assoc, hsum, Nat.add_mod_right]

/-! ## Suppression of the renderings of the drain loop -/

theorem keypress_char_skip_frame (cfg : Config) (now ch : Nat) (s : State)
    (hswap : cfg.SWAP_DEL_WITH_BACKSPACE = false) (hch : ch ≠ 0x7F) :
    (_keypress_char cfg now ch s).backspace_n_skip = s.backspace_n_skip ∧
    (_keypress_char cfg now ch s).last_backspace_t = s.last_backspace_t := by
  have h1 : (if (cfg.SEND_CR_ONLY && ch == 10) = true then 13 else ch) ≠ 0x7F := by
    split_ifs
    · decide
    · exact hch
  have h2 : ((if (cfg.SEND_CR_ONLY && ch == 10) = true then 13 else ch) == 0x7F) = false := by
    simpa using h1
  simp only [_keypress_char, hswap, Bool.false_and, Bool.false_eq_true, if_false, h2,
    Bool.and_false, emit]
  split_ifs <;> exact ⟨rfl, rfl⟩

theorem keypress_loop_skip_frame (cfg : Config) (clk : Nat → Nat) (i : Nat) (str : List Nat)
    (s : State) (hswap : cfg.SWAP_DEL_WITH_BACKSPACE = false) (hstr : 0x7F ∉ cstr str) :
    (_keypress_loop cfg clk i str s).backspace_n_skip = s.backspace_n_skip ∧
    (_keypress_loop cfg clk i str s).last_backspace_t = s.last_backspace_t := by
  induction str generalizing i s with
  | nil => exact ⟨rfl, rfl⟩
  | cons ch rest ih =>
    simp only [_keypress_loop]
    by_cases hz : ch = 0
    · rw [if_pos hz]; exact ⟨rfl, rfl⟩
    · rw [if_neg hz]
      have hc : cstr (ch :: rest) = ch :: cstr rest := by
        simp [cstr, List.takeWhile_cons, hz]
      rw [hc] at hstr
      have hch : ch ≠ 0x7F := fun e => hstr (by rw [e]; exact List.mem_cons_self _ _)
      have hrest : 0x7F ∉ cstr rest := fun m => hstr (List.mem_cons_of_mem _ m)
      obtain ⟨i1, i2⟩ := ih (i + 1) (_keypress_char cfg (clk i) ch s) hrest
      obtain ⟨c1, c2⟩ := keypress_char_skip_frame cfg (clk i) ch s hswap hch
      exact ⟨i1.trans c1, i2.trans c2⟩

/-- With `SKIP_BACKSPACE_ECHO` on and `SWAP_DEL_WITH_BACKSPACE` off, what the drain loop
hands to `gfx_term_putstring` during a run in which no key press carries `0x7F` is what
the suppression rule makes of the consumed bytes. -/
theorem suppression_inbound (cfg : Config) (hskip : cfg.SKIP_BACKSPACE_ECHO = true)
    (hswap : cfg.SWAP_DEL_WITH_BACKSPACE = false) (ops : List Op) (s : State)
    (hnodel : ∀ op ∈ ops, no_del op = true) :
    inbound_putstrings cfg ops s
      = suppression s.last_backspace_t s.backspace_n_skip (consumptions cfg ops s) := by
  induction ops generalizing s with
  | nil => simp [inbound_putstrings, consumptions, suppression]
  | cons op ops ih =>
    have hrest : ∀ o ∈ ops, no_del o = true := fun o ho => hnodel o (List.mem_cons_of_mem _ ho)
    have hop := hnodel op (List.mem_cons_self _ _)
    have hi := ih (step cfg op s) hrest
    cases op with
    | ingest a =>
      obtain ⟨f1, f2, -⟩ := ingest_skip_frame a s
      show inbound_putstrings cfg ops (step cfg (Op.ingest a) s) = _
      rw [hi]
      show suppression (uart_fill_queue (uart_receive a s)).last_backspace_t
            (uart_fill_queue (uart_receive a s)).backspace_n_skip _ = _
      rw [f1, f2]
      rfl
    | timer =>
      obtain ⟨f1, f2, -⟩ := timer_skip_frame cfg s
      show inbound_putstrings cfg ops (step cfg Op.timer s) = _
      rw [hi]
      show suppression (timer_fire cfg s).last_backspace_t
            (timer_fire cfg s).backspace_n_skip _ = _
      rw [f1, f2]
      rfl
    | key clk str =>
      have hstr : 0x7F ∉ cstr str := of_decide_eq_true hop
      obtain ⟨f2, f1⟩ := keypress_loop_skip_frame cfg clk 0 str s hswap hstr
      show inbound_putstrings cfg ops (step cfg (Op.key clk str) s) = _
      rw [hi]
      show suppression (_keypress_loop cfg clk 0 str s).last_backspace_t
            (_keypress_loop cfg clk 0 str s).backspace_n_skip _ = _
      rw [f1, f2]
      rfl
    | drain busy now a =>
      obtain ⟨f1, f2, f3⟩ := iter_skip_frame cfg busy now a s
      show (putstrings (term_main_loop_iter cfg busy now a s).trace).drop
            (putstrings s.trace).length
          ++ inbound_putstrings cfg ops (step cfg (Op.drain busy now a) s) = _
      rw [hi]
      show _ ++ suppression (term_main_loop_iter cfg busy now a s).last_backspace_t
            (term_main_loop_iter cfg busy now a s).backspace_n_skip _ = _
      rw [f1, f2, f3]
      by_cases hidle : busy = true ∨ s.uart_buffer_start = s.uart_buffer_end
      · rw [consume_idle cfg busy now s hidle]
        have hc : consumptions cfg (Op.drain busy now a :: ops) s
            = consumptions cfg ops (step cfg (Op.drain busy now a) s) := by
          rcases hidle with hb | he
          · simp [consumptions, hb]
          · simp [consumptions, he]
        rw [hc, List.drop_length, List.nil_append]
      · have hb1 : busy = false := by
          cases busy <;> simp_all
        subst hb1
        have hne : s.uart_buffer_start ≠ s.uart_buffer_end := fun e => hidle (Or.inr e)
        obtain ⟨r1, r2⟩ := consume_render cfg now s hne
        have hc : consumptions cfg (Op.drain false now a :: ops) s
            = (s.mem s.uart_buffer_start, now)
                :: consumptions cfg ops (step cfg (Op.drain false now a) s) := by
          simp [consumptions, hne]
        rw [hc, r1, r2, putstrings_append, List.drop_left, suppression]
        simp only [hskip, if_true, true_and]
        by_cases hw : sub32 now s.last_backspace_t > 50000
        · simp [hw, putstrings]
        · by_cases h0 : s.backspace_n_skip = 0
          · simp [hw, h0, putstrings]
          · by_cases h1 : s.backspace_n_skip = 1
            · simp [hw, h1, putstrings]
            · have hpos : 0 < s.backspace_n_skip := Nat.pos_of_ne_zero h0
              have hne1 : ¬ s.backspace_n_skip - 1 = 0 := by omega
              simp [hw, h0, h1, hpos, hne1, putstrings]

/-- The key press "DEL", then a run in which no key press carries `0x7F`. -/
theorem del_then_inbound (cfg : Config) (clk : Nat → Nat) (ops : List Op) (s : State)
    (hskip : cfg.SKIP_BACKSPACE_ECHO = true) (hswap : cfg.SWAP_DEL_WITH_BACKSPACE = false)
    (hnodel : ∀ op ∈ ops, no_del op = true) :
    inbound_putstrings cfg ops (_keypress_handler cfg clk [0x7F, 0] s)
      = suppression (clk 0) 2 (consumptions cfg ops (_keypress_handler cfg clk [0x7F, 0] s)) := by
  have hk := keypress_del_effect cfg clk s hskip hswap
  have k5 : (_keypress_handler cfg clk [0x7F, 0] s).backspace_n_skip = 2 := by rw [hk]; rfl
  have k6 : (_keypress_handler cfg clk [0x7F, 0] s).last_backspace_t = clk 0 % 2 ^ 32 := by
    rw [hk]; rfl
  have hr := suppression_inbound cfg hskip hswap ops (_keypress_handler cfg clk [0x7F, 0] s) hnodel
  rw [k5, k6, suppression_mod] at hr
  exact hr

/-! ## Claims -/

/-- C1, capacity invariant. Starting from the state `initialize_uart_irq` sets up,
after any finite sequence of steps (UART interrupts with any pending bytes,
iterations of `term_main_loop` with any DMA-busy value, key presses, timer
firings) the limit is still 16384 and both cursors are offsets below it; the same
holds after every pass through the loop body of a further `uart_fill_queue`
invocation, so each store `*uart_buffer_end++ = ...` and each load
`*uart_buffer_start++` is inside the buffer. -/
theorem C1_capacity_invariant (cfg : Config) (s0 : State) (ops : List Op) :
    (run cfg ops (initialize_uart_irq s0)).uart_buffer_limit = UART_BUFFER_SIZE ∧
    (run cfg ops (initialize_uart_irq s0)).uart_buffer_end < 16384 ∧
    (run cfg ops (initialize_uart_irq s0)).uart_buffer_start < 16384 ∧
    ∀ rx : List Nat,
      (uart_fill_queue_loop rx (run cfg ops (initialize_uart_irq s0))).uart_buffer_end < 16384 ∧
      (uart_fill_queue_loop rx (run cfg ops (initialize_uart_irq s0))).uart_buffer_start
        < 16384 := by
  have hl : (run cfg ops (initialize_uart_irq s0)).uart_buffer_limit = 16384 := by
    rw [run_limit, init_limit]
  have hi := run_inv cfg ops _ (init_inv s0)
  refine ⟨hl, ?_, ?_, ?_⟩
  · have := hi.2; omega
  · have := hi.1; omega
  · intro rx
    have h2 := loop_inv rx _ hi
    have h3 := (loop_frame rx (run cfg ops (initialize_uart_irq s0))).1
    obtain ⟨h4, h5⟩ := h2
    omega

/-- C2, first in first out without overflow, as the code has it. Start from the freshly
initialised buffer with nothing pending in the UART. If every ingestion of the run
fits (the bytes still unread plus the bytes being ingested number at most
`capacity - 1` at each call of `uart_fill_queue`), then at the end of the run the
ingested sequence is the drained sequence followed by the unread contents: the
drained bytes are a prefix of the ingested bytes, in order, nothing lost, duplicated
or reordered; and when the buffer is empty at the end, the drained sequence equals the
ingested sequence. -/
theorem C2_fifo_ordering (cfg : Config) (s0 : State) (ops : List Op) (h0 : s0.rx = [])
    (hfit : fits cfg ops (initialize_uart_irq s0)) :
    ingested ops (initialize_uart_irq s0)
      = drained cfg ops (initialize_uart_irq s0)
          ++ unread (run cfg ops (initialize_uart_irq s0)) ∧
    List.IsPrefix (drained cfg ops (initialize_uart_irq s0))
      (ingested ops (initialize_uart_irq s0)) ∧
    ((run cfg ops (initialize_uart_irq s0)).uart_buffer_start
        = (run cfg ops (initialize_uart_irq s0)).uart_buffer_end →
      drained cfg ops (initialize_uart_irq s0) = ingested ops (initialize_uart_irq s0)) := by
  have hrx : (initialize_uart_irq s0).rx = [] := h0
  obtain ⟨-, hr⟩ := fifo_run cfg ops _ (init_inv s0) hrx hfit
  have hu : unread (initialize_uart_irq s0) = [] := rfl
  have hi : ingested ops (initialize_uart_irq s0)
      = drained cfg ops (initialize_uart_irq s0)
          ++ unread (run cfg ops (initialize_uart_irq s0)) := by
    rw [← hr, hu, List.nil_append, ingested, hrx, List.nil_append]
  refine ⟨hi, ⟨_, hi.symm⟩, ?_⟩
  intro he
  rw [hi, (unread_eq_nil_iff _ (run_inv cfg ops _ (init_inv s0))).mpr he, List.append_nil]

/-- C2 at a concrete run: "AB" is ingested, three iterations of `term_main_loop` follow,
the first of which ingests "C"; the drained bytes are "ABC", the bytes ingested. -/
theorem C2_fifo_ordering_witness :
    drained cfg_off [Op.ingest [0x41, 0x42], Op.drain false 0 [0x43], Op.drain false 0 [],
        Op.drain false 0 []] (initialize_uart_irq boot)
      = ingested [Op.ingest [0x41, 0x42], Op.drain false 0 [0x43], Op.drain false 0 [],
        Op.drain false 0 []] (initialize_uart_irq boot) :=
  (C2_fifo_ordering cfg_off boot [Op.ingest [0x41, 0x42], Op.drain false 0 [0x43],
      Op.drain false 0 [], Op.drain false 0 []] rfl
    ⟨by decide, by decide, by decide, by decide, trivial⟩).2.2 (by decide)

/-- C2 as written fails. In `overflow_run` no more than `capacity - 1 = 16383` bytes are
ingested between two drain observations (16383 "A" before the first, 16383 "B" before
the second), yet the second byte drained is a "B" while the second byte ingested is
an "A": the drained sequence is not even a prefix of the ingested one, because each
drain observation takes out a single byte and the second ingestion overwrites the
16382 bytes still unread. -/
theorem C2_counterexample :
    ingested_between 0 overflow_run = [16383, 16383, 0] ∧
    drained cfg_off overflow_run (initialize_uart_irq boot) = [0x41, 0x42] ∧
    (ingested overflow_run (initialize_uart_irq boot)).take 2 = [0x41, 0x41] ∧
    ¬ List.IsPrefix (drained cfg_off overflow_run (initialize_uart_irq boot))
      (ingested overflow_run (initialize_uart_irq boot)) := by
  have hd := overflow_run_drained
  have h65 : (65 : Nat) &&& 255 = 65 := by decide
  have h66 : (66 : Nat) &&& 255 = 66 := by decide
  have hi : ingested overflow_run (initialize_uart_irq boot)
      = List.replicate 16383 0x41 ++ List.replicate 16383 0x42 := by
    rw [overflow_run, ingested_two_batches _ _ _ _ _ rfl, bytes_of, List.map_replicate,
      bytes_of, List.map_replicate, h65, h66]
  have ht : (ingested overflow_run (initialize_uart_irq boot)).take 2 = [0x41, 0x41] := by
    have hle : 2 ≤ (List.replicate 16383 0x41).length := by
      rw [List.length_replicate]; decide
    rw [hi, List.take_append_of_le_length hle, List.take_replicate]
    decide
  refine ⟨?_, hd, ht, ?_⟩
  · simp only [ingested_between, overflow_run, List.length_replicate, List.length_nil,
      Nat.zero_add]
  · intro hp
    rw [hd] at hp
    have h2 := List.prefix_iff_eq_take.mp hp
    rw [show ([65, 66] : List Nat).length = 2 from rfl, ht] at h2
    exact absurd h2 (by decide)

/-- C3, overwrite policy, as the code has it. Starting from the freshly initialised
empty buffer (nothing pending in the UART), after 16384 bytes are ingested without any
drain the read cursor is already at offset 1 and the oldest byte is gone; after one
more byte is ingested the unread contents are the most recent 16383 of the 16385
bytes ingested, the two oldest bytes have been dropped, and the read cursor is at
offset 2, two positions from its initial value 0. -/
theorem C3_overwrite_policy (cfg : Config) (s0 : State) (h0 : s0.rx = []) (bs : List Nat)
    (b : Nat) (hlen : bs.length = 16384) :
    (initialize_uart_irq s0).uart_buffer_start = 0 ∧
    (run cfg [Op.ingest bs] (initialize_uart_irq s0)).uart_buffer_start = 1 ∧
    unread (run cfg [Op.ingest bs] (initialize_uart_irq s0)) = (bytes_of bs).drop 1 ∧
    (run cfg [Op.ingest bs, Op.ingest [b]] (initialize_uart_irq s0)).uart_buffer_start = 2 ∧
    unread (run cfg [Op.ingest bs, Op.ingest [b]] (initialize_uart_irq s0))
      = (bytes_of (bs ++ [b])).drop 2 ∧
    unread (run cfg [Op.ingest bs, Op.ingest [b]] (initialize_uart_irq s0))
      = lastN (UART_BUFFER_SIZE - 1) (bytes_of (bs ++ [b])) := by
  obtain ⟨h1, h2, h3, -, h5⟩ := overwrite_effect cfg s0 h0 bs b hlen
  refine ⟨rfl, h1, h2, h3, h5, ?_⟩
  rw [h5, lastN]
  have : (bytes_of (bs ++ [b])).length = 16385 := by simp [bytes_of, hlen]
  rw [this]
  rfl

/-- C3 at a concrete input: 16384 bytes `0x41`, then `0x42`. -/
theorem C3_overwrite_policy_witness :
    (run cfg_off [Op.ingest (List.replicate 16384 0x41), Op.ingest [0x42]]
      (initialize_uart_irq boot)).uart_buffer_start = 2 :=
  (C3_overwrite_policy cfg_off boot rfl (List.replicate 16384 0x41) 0x42
    (List.length_replicate _ _)).2.2.2.1

/-- C3 as written fails: after 16384 bytes `0x41` and then one byte `0x42` are ingested
into the freshly initialised buffer, the read cursor stands at offset 2, not 1, and
only 16383 of the 16385 ingested bytes are unread, so two bytes were dropped, not one. -/
theorem C3_counterexample :
    (initialize_uart_irq boot).uart_buffer_start = 0 ∧
    (run cfg_off [Op.ingest (List.replicate 16384 0x41), Op.ingest [0x42]]
      (initialize_uart_irq boot)).uart_buffer_start = 2 ∧
    (unread (run cfg_off [Op.ingest (List.replicate 16384 0x41), Op.ingest [0x42]]
      (initialize_uart_irq boot))).length + 2 = 16384 + 1 := by
  obtain ⟨-, -, h3, -, h5⟩ := overwrite_effect cfg_off boot rfl (List.replicate 16384 0x41) 0x42
    (List.length_replicate _ _)
  refine ⟨rfl, h3, ?_⟩
  rw [h5]
  simp only [bytes_of, List.length_drop, List.length_map, List.length_append,
    List.length_replicate, List.length_singleton]

/-- C4, single writer per field, as the code has it. For every state satisfying the
capacity invariant: when the unread bytes plus the values pending in the UART number
at most `capacity - 1`, `uart_fill_queue` leaves the read cursor unchanged; when they
do not, its overwrite-on-full branch advances the read cursor by one position, modulo
the capacity, for each of the `unread + pending - (capacity - 1)` bytes dropped, so
the read cursor has two writers. For every state, with no condition, the consume step
of `term_main_loop` leaves the write cursor and every stored byte unchanged, and so do
a key press and a timer firing, which leave the read cursor unchanged as well. -/
theorem C4_single_writer (cfg : Config) (busy : Bool) (now : Nat) (clk : Nat → Nat)
    (str : List Nat) (s : State) :
    (inv s → unread_count s + s.rx.length ≤ s.uart_buffer_limit - 1 →
      (uart_fill_queue s).uart_buffer_start = s.uart_buffer_start) ∧
    (inv s → unread_count s + s.rx.length > s.uart_buffer_limit - 1 →
      (uart_fill_queue s).uart_buffer_start
        = (s.uart_buffer_start + (unread_count s + s.rx.length - (s.uart_buffer_limit - 1)))
            % s.uart_buffer_limit) ∧
    (term_main_loop_consume cfg busy now s).uart_buffer_end = s.uart_buffer_end ∧
    (term_main_loop_consume cfg busy now s).mem = s.mem ∧
    (_keypress_handler cfg clk str s).uart_buffer_end = s.uart_buffer_end ∧
    (_keypress_handler cfg clk str s).uart_buffer_start = s.uart_buffer_start ∧
    (_keypress_handler cfg clk str s).mem = s.mem ∧
    (timer_fire cfg s).uart_buffer_end = s.uart_buffer_end ∧
    (timer_fire cfg s).uart_buffer_start = s.uart_buffer_start ∧
    (timer_fire cfg s).mem = s.mem := by
  obtain ⟨c1, c2, -⟩ := consume_frame cfg busy now s
  obtain ⟨k1, k2, k3, -⟩ := keypress_loop_buffer cfg clk 0 str s
  obtain ⟨t1, t2, t3, -⟩ := timer_fire_buffer cfg s
  exact ⟨fun h hfit => fill_start_of_fit s h hfit,
    fun h hov => fill_start_of_overflow s h hov, c2, c1, k3, k2, k1, t3, t2, t1⟩

/-- C4 at `sample_state`: two pending values fit into the empty buffer, and the read
cursor stays at offset 0. -/
theorem C4_single_writer_witness :
    (uart_fill_queue sample_state).uart_buffer_start = 0 :=
  (C4_single_writer cfg_off false 0 (fun _ => 0) [] sample_state).1 (by decide) (by decide)

/-- C4 as written fails: with 16384 values pending in the UART, `uart_fill_queue` run on
the freshly initialised buffer moves the read cursor from offset 0 to offset 1. -/
theorem C4_counterexample :
    inv (uart_receive (List.replicate 16384 0x41) (initialize_uart_irq boot)) ∧
    (uart_receive (List.replicate 16384 0x41) (initialize_uart_irq boot)).uart_buffer_start = 0 ∧
    (uart_fill_queue (uart_receive (List.replicate 16384 0x41)
      (initialize_uart_irq boot))).uart_buffer_start = 1 :=
  ⟨init_inv boot, rfl,
    (overwrite_effect cfg_off boot rfl (List.replicate 16384 0x41) 0
      (List.length_replicate _ _)).1⟩

/-- C5, inbound bytes are rendered unchanged, as the code has it. With the DMA engine
never busy, the suppression counter zero and no key press, nothing pending in the UART
at the start, every ingestion of at most `capacity - 1` bytes and the drain loop run
to completion after each ingestion: the drain loop ends with the buffer empty, it
calls `gfx_term_putstring` once per ingested byte, in order, with the one-byte string
of that byte when the byte is not NUL and with the empty string when it is NUL; so
the bytes rendered are the ingested bytes without the NULs, and exactly the ingested
bytes when none of them is NUL. -/
theorem C5_inbound_rendering (cfg : Config) (now : Nat → Nat) (batches : List (List Nat))
    (s0 : State) (h0 : s0.rx = []) (hn : s0.backspace_n_skip = 0)
    (hfit : ∀ b ∈ batches, b.length ≤ UART_BUFFER_SIZE - 1) :
    (ingest_and_drain cfg now batches (initialize_uart_irq s0)).uart_buffer_start
      = (ingest_and_drain cfg now batches (initialize_uart_irq s0)).uart_buffer_end ∧
    putstrings (ingest_and_drain cfg now batches (initialize_uart_irq s0)).trace
      = putstrings s0.trace ++ (bytes_of batches.flatten).map (fun b => cstr [b, 0]) ∧
    (∀ b : Nat, cstr [b, 0] = if b = 0 then [] else [b]) ∧
    rendered (ingest_and_drain cfg now batches (initialize_uart_irq s0)).trace
      = rendered s0.trace ++ (bytes_of batches.flatten).filter (fun b => b != 0) ∧
    ((∀ b ∈ bytes_of batches.flatten, b ≠ 0) →
      rendered (ingest_and_drain cfg now batches (initialize_uart_irq s0)).trace
        = rendered s0.trace ++ bytes_of batches.flatten) := by
  obtain ⟨e1, e2⟩ := init_ingest_and_drain cfg now batches s0 h0 hn
  have hb : (batches.map (fun b => lastN 16383 (bytes_of b))).flatten
      = bytes_of batches.flatten := by
    have : batches.map (fun b => lastN 16383 (bytes_of b)) = batches.map bytes_of := by
      apply List.map_congr_left
      intro b hb
      apply lastN_of_length_le
      have := hfit b hb
      simp only [bytes_of, List.length_map, UART_BUFFER_SIZE] at this ⊢
      omega
    rw [this]
    simp only [bytes_of, List.map_flatten]
    rfl
  rw [hb] at e2
  have e3 : rendered (ingest_and_drain cfg now batches (initialize_uart_irq s0)).trace
      = rendered s0.trace ++ (bytes_of batches.flatten).filter (fun b => b != 0) := by
    rw [rendered_eq_flatten, e2, List.flatten_append, cstr_flatten, rendered_eq_flatten]
  refine ⟨e1, e2, cstr_byte, e3, ?_⟩
  intro hnz
  rw [e3, List.filter_eq_self.mpr]
  intro b hb
  simpa using hnz b hb

/-- C5 at the bytes "AB\n": the rendered bytes are `0x41, 0x42, 0x0A`. -/
theorem C5_inbound_rendering_witness :
    rendered (ingest_and_drain cfg_skip (fun _ => 0) [[0x41, 0x42, 0x0A]]
      (initialize_uart_irq boot)).trace = [0x41, 0x42, 0x0A] :=
  (C5_inbound_rendering cfg_skip (fun _ => 0) [[0x41, 0x42, 0x0A]] boot rfl rfl
    (by decide)).2.2.2.2 (by decide)

/-- C5 as written fails. An ingested NUL byte reaches `gfx_term_putstring` as the empty
string, not as a string of length one: "A", NUL, "B" renders as "AB". And an ingestion
of 16384 bytes overruns the buffer before the drain loop runs: only 16383 of them are
rendered. -/
theorem C5_counterexample :
    putstrings (ingest_and_drain cfg_off (fun _ => 0) [[0x41, 0x00, 0x42]]
      (initialize_uart_irq boot)).trace = [[0x41], [], [0x42]] ∧
    rendered (ingest_and_drain cfg_off (fun _ => 0) [[0x41, 0x00, 0x42]]
      (initialize_uart_irq boot)).trace = [0x41, 0x42] ∧
    (rendered (ingest_and_drain cfg_off (fun _ => 0) [List.replicate 16384 0x41]
      (initialize_uart_irq boot)).trace).length = 16383 := by
  have h1 := (init_ingest_and_drain cfg_off (fun _ => 0) [[0x41, 0x00, 0x42]] boot rfl rfl).2
  have h2 := (init_ingest_and_drain cfg_off (fun _ => 0) [List.replicate 16384 0x41]
    boot rfl rfl).2
  have hl : lastN 16383 (bytes_of (List.replicate 16384 0x41)) = List.replicate 16383 0x41 := by
    simp only [lastN, bytes_of, List.map_replicate, List.length_replicate, List.drop_replicate]
    rfl
  refine ⟨?_, ?_, ?_⟩
  · rw [h1]; decide
  · rw [rendered_eq_flatten, h1]; decide
  · rw [rendered_eq_flatten, h2]
    simp only [List.map_cons, List.map_nil, List.flatten_cons, List.flatten_nil,
      List.append_nil, hl, cstr_flatten]
    have : (List.replicate 16383 65).filter (fun b => b != 0) = List.replicate 16383 65 := by
      rw [List.filter_eq_self]
      intro a ha
      rw [List.eq_of_mem_replicate ha]
      decide
    show (putstrings boot.trace ++ _).flatten.length = _
    simp only [boot, putstrings, List.nil_append, cstr_flatten, this, List.length_replicate]

/-- C6, backspace suppression, as the code has it. With `SKIP_BACKSPACE_ECHO` on and
`SWAP_DEL_WITH_BACKSPACE` off, the key press "DEL" (byte `0x7F`) at clock reading `T0`
arms the suppression (counter 2, timestamp `T0`). For as long as the keyboard bridge is
not given `0x7F` again (other key presses, UART interrupts, iterations of
`term_main_loop` and timer firings may follow in any order), the strings the drain loop
hands to `gfx_term_putstring` are what the suppression rule makes of the bytes it
consumes. In particular: if the first two bytes consumed are consumed at times whose
unsigned 32-bit distance from `T0` is at most 50000, they give the empty string and
"\x7F", together one rendering of byte `0x7F`, and every later byte, the third
included, is handed over as it is without suppression; if the first byte is consumed
when that distance exceeds 50000, it and every later byte are handed over as without
suppression; and likewise the second byte when only the first was consumed inside the
window. With no key press at all after the "DEL", these strings are all that the run
adds to the calls of `gfx_term_putstring` in the trace. -/
theorem C6_backspace_suppression (cfg : Config) (clk : Nat → Nat) (ops : List Op) (s : State)
    (hskip : cfg.SKIP_BACKSPACE_ECHO = true) (hswap : cfg.SWAP_DEL_WITH_BACKSPACE = false)
    (hnodel : ∀ op ∈ ops, no_del op = true) :
    (_keypress_handler cfg clk [0x7F, 0] s).backspace_n_skip = 2 ∧
    (_keypress_handler cfg clk [0x7F, 0] s).last_backspace_t = clk 0 % 2 ^ 32 ∧
    inbound_putstrings cfg (Op.key clk [0x7F, 0] :: ops) s
      = suppression (clk 0) 2
          (consumptions cfg ops (_keypress_handler cfg clk [0x7F, 0] s)) ∧
    (∀ (b1 t1 b2 t2 : Nat) (more : List (Nat × Nat)),
      consumptions cfg ops (_keypress_handler cfg clk [0x7F, 0] s)
        = (b1, t1) :: (b2, t2) :: more →
      sub32 t1 (clk 0) ≤ 50000 → sub32 t2 (clk 0) ≤ 50000 →
      inbound_putstrings cfg (Op.key clk [0x7F, 0] :: ops) s
        = [] :: [0x7F] :: more.map (fun p => cstr [p.1, 0])) ∧
    (∀ (b1 t1 : Nat) (more : List (Nat × Nat)),
      consumptions cfg ops (_keypress_handler cfg clk [0x7F, 0] s) = (b1, t1) :: more →
      sub32 t1 (clk 0) > 50000 →
      inbound_putstrings cfg (Op.key clk [0x7F, 0] :: ops) s
        = cstr [b1, 0] :: more.map (fun p => cstr [p.1, 0])) ∧
    (∀ (b1 t1 b2 t2 : Nat) (more : List (Nat × Nat)),
      consumptions cfg ops (_keypress_handler cfg clk [0x7F, 0] s)
        = (b1, t1) :: (b2, t2) :: more →
      sub32 t1 (clk 0) ≤ 50000 → sub32 t2 (clk 0) > 50000 →
      inbound_putstrings cfg (Op.key clk [0x7F, 0] :: ops) s
        = [] :: cstr [b2, 0] :: more.map (fun p => cstr [p.1, 0])) ∧
    ((∀ op ∈ ops, is_key op = false) →
      putstrings (run cfg (Op.key clk [0x7F, 0] :: ops) s).trace
        = putstrings s.trace ++ inbound_putstrings cfg (Op.key clk [0x7F, 0] :: ops) s) := by
  have hk := keypress_del_effect cfg clk s hskip hswap
  have hr : inbound_putstrings cfg (Op.key clk [0x7F, 0] :: ops) s
      = suppression (clk 0) 2
          (consumptions cfg ops (_keypress_handler cfg clk [0x7F, 0] s)) :=
    del_then_inbound cfg clk ops s hskip hswap hnodel
  refine ⟨by rw [hk]; rfl, by rw [hk]; rfl, hr, ?_, ?_, ?_, ?_⟩
  · intro b1 t1 b2 t2 more hc w1 w2
    have n1 : ¬ sub32 t1 (clk 0) > 50000 := by omega
    have n2 : ¬ sub32 t2 (clk 0) > 50000 := by omega
    rw [hr, hc]
    simp [suppression, n1, n2, suppression_zero]
  · intro b1 t1 more hc w1
    rw [hr, hc]
    simp [suppression, w1, suppression_zero]
  · intro b1 t1 b2 t2 more hc w1 w2
    have n1 : ¬ sub32 t1 (clk 0) > 50000 := by omega
    rw [hr, hc]
    simp [suppression, n1, w2, suppression_zero]
  · intro hnokey
    rw [hr]
    exact del_then_run cfg clk ops s hskip hswap hnokey

/-- C6 at a concrete run, across the wrap of the 32-bit clock: "DEL" is pressed at
`T0 = 2^32 - 10` on the freshly initialised machine; one idle iteration and the key
press "a" later the remote echo `0x08, 0x20, 0x08` arrives and is consumed at clock
readings 5, 20 and 30: the strings rendered are the empty string, "\x7F" and "\x08". -/
theorem C6_backspace_suppression_witness :
    inbound_putstrings cfg_skip (Op.key (fun _ => 4294967286) [0x7F, 0] :: echo_run)
      (initialize_uart_irq boot) = [[], [0x7F], [0x08]] :=
  (C6_backspace_suppression cfg_skip (fun _ => 4294967286) echo_run
    (initialize_uart_irq boot) rfl rfl (by decide)).2.2.2.1 0x08 5 0x20 20 [(0x08, 30)]
    (by decide) (by decide) (by decide)

/-- C6 as written fails in two ways. When delete-to-backspace substitution is on as
well, the key press "DEL" is turned into `0x08` before the suppression test, the
counter is not armed, and the inbound bytes `0x08`, `0x20`, consumed 15 and 30
microseconds after the key press, are rendered as themselves. And with the substitution
off, a second key press "DEL" inside the window re-arms the counter: after "DEL" at
1000, "A" consumed at 1003, "DEL" again at 1006 and "B", "C" consumed at 1010 and 1020,
the first two inbound bytes give two empty strings and no rendering of `0x7F`, and the
third is replaced by "\x7F". -/
theorem C6_counterexample :
    cfg_swap_skip.SKIP_BACKSPACE_ECHO = true ∧
    (_keypress_handler cfg_swap_skip (fun _ => 4294967286) [0x7F, 0]
      (initialize_uart_irq boot)).backspace_n_skip = 0 ∧
    consumptions cfg_swap_skip echo_run
      (_keypress_handler cfg_swap_skip (fun _ => 4294967286) [0x7F, 0] (initialize_uart_irq boot))
      = [(0x08, 5), (0x20, 20), (0x08, 30)] ∧
    sub32 5 4294967286 = 15 ∧ sub32 20 4294967286 = 30 ∧
    inbound_putstrings cfg_swap_skip (Op.key (fun _ => 4294967286) [0x7F, 0] :: echo_run)
      (initialize_uart_irq boot) = [[0x08], [0x20], [0x08]] ∧
    cfg_skip.SWAP_DEL_WITH_BACKSPACE = false ∧
    consumptions cfg_skip del_again_run
      (_keypress_handler cfg_skip (fun _ => 1000) [0x7F, 0] (initialize_uart_irq boot))
      = [(0x41, 1003), (0x42, 1010), (0x43, 1020)] ∧
    sub32 1003 1000 = 3 ∧ sub32 1010 1000 = 10 ∧ sub32 1020 1000 = 20 ∧
    inbound_putstrings cfg_skip (Op.key (fun _ => 1000) [0x7F, 0] :: del_again_run)
      (initialize_uart_irq boot) = [[], [], [0x7F]] := by
  decide

/-- C7, newline-to-CR-LF expansion. With `SEND_CR_LF` on and the two substitutions
(`SEND_CR_ONLY`, `SWAP_DEL_WITH_BACKSPACE`) off, for every byte sequence `str` at the
argument pointer, the bytes `_keypress_handler` hands to `uart_write` are the text of
`str` (its bytes before the first NUL) with one `0x0D` inserted immediately before
every `0x0A`, everything else in order; their number is the length of the text plus
the number of its `0x0A` bytes. -/
theorem C7_crlf_expansion (cfg : Config) (clk : Nat → Nat) (str : List Nat) (s : State)
    (h1 : cfg.SEND_CR_LF = true) (h2 : cfg.SEND_CR_ONLY = false)
    (h3 : cfg.SWAP_DEL_WITH_BACKSPACE = false) :
    transmitted (_keypress_handler cfg clk str s).trace
      = transmitted s.trace ++ crlf_expand (cstr str) ∧
    (crlf_expand (cstr str)).length = (cstr str).length + (cstr str).count 10 :=
  ⟨keypress_loop_transmitted cfg clk 0 str s h1 h2 h3, crlf_expand_length _⟩

/-- C7 at the text "a\n": the bytes transmitted are `0x61, 0x0D, 0x0A`. -/
theorem C7_crlf_expansion_witness :
    transmitted (_keypress_handler cfg_crlf (fun _ => 0) [0x61, 0x0A, 0] boot).trace
      = [0x61, 0x0D, 0x0A] :=
  (C7_crlf_expansion cfg_crlf (fun _ => 0) [0x61, 0x0A, 0] boot rfl rfl rfl).1

/-- C8, ingest postcondition. For every state satisfying the capacity invariant, with
`u` unread bytes and `n` values pending in the UART receive FIFO, `uart_fill_queue`
(a total function) leaves the FIFO empty, keeps the invariant, and the unread
contents afterwards are the last `min (u + n) (capacity - 1)` bytes of the old
unread contents followed by the low eight bits of the pending values: a suffix of
that sequence, never longer than `capacity - 1`. Every stored byte is below 256, and
the interrupt-clear store to `*UART0_ITCR` is the only trace of the call. -/
theorem C8_ingest_postcondition (s : State) (h : inv s) :
    (uart_fill_queue s).rx = [] ∧
    inv (uart_fill_queue s) ∧
    unread (uart_fill_queue s)
      = (unread s ++ bytes_of s.rx).drop
          ((unread s ++ bytes_of s.rx).length
            - min (unread_count s + s.rx.length) (s.uart_buffer_limit - 1)) ∧
    (unread (uart_fill_queue s)).length
      = min (unread_count s + s.rx.length) (s.uart_buffer_limit - 1) ∧
    (unread (uart_fill_queue s)).length ≤ s.uart_buffer_limit - 1 ∧
    List.IsSuffix (unread (uart_fill_queue s)) (unread s ++ bytes_of s.rx) ∧
    (∀ b ∈ bytes_of s.rx, b < 256) ∧
    (uart_fill_queue s).trace = s.trace ++ [Event.W32 s.UART0_ITCR 0xFFFFFFFF] := by
  have hu := fill_unread s h
  have hc := fill_count s h
  have hlen : (unread s ++ bytes_of s.rx).length = unread_count s + s.rx.length := by
    simp [unread_length, bytes_of]
  have hd : (unread s ++ bytes_of s.rx).length
      - min (unread_count s + s.rx.length) (s.uart_buffer_limit - 1)
      = (unread s ++ bytes_of s.rx).length - (s.uart_buffer_limit - 1) := by
    rw [hlen]; omega
  refine ⟨(fill_frame s).2.2.2.2.2.2.2, fill_inv s h, ?_, ?_, ?_, ?_, ?_,
    (fill_frame s).2.2.2.2.2.2.1⟩
  · rw [hu, hd]; rfl
  · rw [unread_length, hc]
  · rw [unread_length, hc]; omega
  · rw [hu]; exact List.drop_suffix _ _
  · intro b hb
    obtain ⟨dr, -, rfl⟩ := List.mem_map.mp hb
    rw [land_ff]
    exact Nat.mod_lt _ (by decide)

/-- C8 at `sample_state`: the two pending values `0x141`, `0x42` end up as the unread
bytes `0x41`, `0x42`. -/
theorem C8_ingest_postcondition_witness :
    inv sample_state ∧ (uart_fill_queue sample_state).rx = [] ∧
    unread (uart_fill_queue sample_state) = [0x41, 0x42] := by
  have h : inv sample_state := by decide
  have hc := C8_ingest_postcondition sample_state h
  refine ⟨h, hc.1, ?_⟩
  rw [hc.2.2.1]
  decide

/-- C9, drain-loop backpressure and one-byte bound. For every state, one iteration of
`term_main_loop` makes at most one call of `gfx_term_putstring`, with a string of at
most one byte, followed by the interrupt-clear store of `uart_fill_queue` and by
`timer_poll`, and leaves the UART receive FIFO empty. When the DMA engine is busy or
the two cursors are equal at loop entry, the consume step changes nothing at all
(nothing rendered, read cursor and buffer as before), and the iteration still
records exactly the store of `uart_fill_queue` and the call of `timer_poll`. -/
theorem C9_drain_backpressure (cfg : Config) (busy : Bool) (now : Nat) (arrivals : List Nat)
    (s : State) :
    (∃ out : List Nat, out.length ≤ 1 ∧
      ((term_main_loop_iter cfg busy now arrivals s).trace
          = s.trace ++ [Event.W32 s.UART0_ITCR 0xFFFFFFFF, Event.timer_poll] ∨
       (term_main_loop_iter cfg busy now arrivals s).trace
          = s.trace ++ [Event.gfx_term_putstring out,
              Event.W32 s.UART0_ITCR 0xFFFFFFFF, Event.timer_poll])) ∧
    (term_main_loop_iter cfg busy now arrivals s).rx = [] ∧
    (term_main_loop_iter cfg busy now arrivals s
      = timer_poll (uart_fill_queue (uart_receive arrivals
          (term_main_loop_consume cfg busy now s)))) ∧
    ((busy = true ∨ s.uart_buffer_start = s.uart_buffer_end) →
      term_main_loop_consume cfg busy now s = s ∧
      (term_main_loop_iter cfg busy now arrivals s).trace
        = s.trace ++ [Event.W32 s.UART0_ITCR 0xFFFFFFFF, Event.timer_poll]) := by
  have ht := iter_trace cfg busy now arrivals s
  refine ⟨?_, iter_rx cfg busy now arrivals s, rfl, ?_⟩
  · obtain ⟨out, hlen, hc | hc⟩ := consume_trace cfg busy now s
    · exact ⟨out, hlen, Or.inl (by rw [ht, hc])⟩
    · exact ⟨out, hlen, Or.inr (by rw [ht, hc]; simp)⟩
  · intro hidle
    have hc := consume_idle cfg busy now s hidle
    exact ⟨hc, by rw [ht, hc]⟩

/-- C10, heartbeat state machine. `heartbeat_init` leaves `led_status = 0` (UNLIT). For
every state `t`, `_heartbeat_timer_handler` toggles the indicator: from LIT it stores
bit 16 to `GPCLR0` and sets `led_status = 0`, from UNLIT it stores bit 16 to `GPSET0`
and sets `led_status = 1`; then it registers exactly one timer callback, itself, with
delay `HEARTBEAT_FREQUENCY`. Hence after `k` timer firings from the state `entry_point`
sets up, `led_status = k % 2` (LIT iff `k` is odd) and exactly one heartbeat timer is
pending. (The timer registry is the spec's one-shot list.) -/
theorem C10_heartbeat (cfg : Config) (gpfsel1 : Nat) (s t : State) (k : Nat) :
    (heartbeat_init gpfsel1 s).led_status = 0 ∧
    (_heartbeat_timer_handler cfg t).led_status = (if t.led_status ≠ 0 then 0 else 1) ∧
    (_heartbeat_timer_handler cfg t).trace
      = t.trace ++ [Event.W32 (if t.led_status ≠ 0 then GPCLR0 else GPSET0) 0x10000,
          Event.attach_timer_handler cfg.HEARTBEAT_FREQUENCY Handler.heartbeat] ∧
    (_heartbeat_timer_handler cfg t).timers
      = t.timers ++ [(cfg.HEARTBEAT_FREQUENCY, Handler.heartbeat)] ∧
    (fire cfg k (entry_point cfg gpfsel1 s)).led_status = k % 2 ∧
    ((fire cfg k (entry_point cfg gpfsel1 s)).led_status ≠ 0 ↔ k % 2 = 1) ∧
    (fire cfg k (entry_point cfg gpfsel1 s)).timers
      = [(cfg.HEARTBEAT_FREQUENCY, Handler.heartbeat)] ∧
    heartbeat_pending (fire cfg k (entry_point cfg gpfsel1 s)) = 1 := by
  obtain ⟨e1, e2, e3⟩ := heartbeat_handler_effect cfg t
  obtain ⟨p1, p2⟩ := entry_point_heartbeat cfg gpfsel1 s
  obtain ⟨f1, f2⟩ := fire_effect cfg k _ p1 p2
  refine ⟨rfl, e1, e3, e2, f1, ?_, f2, ?_⟩
  · rw [f1]; omega
  · simp [heartbeat_pending, f2]

end PiGFX
